import Mathlib

/-!
# Verification of the KE Top 500 ranking pipeline

Shallow embedding of `scripts/build_ke_top500.py` and `scripts/rollup_top500.py`.

Modelling conventions:
* Python `float` arithmetic is modelled over `ℚ`; the transcendental helpers
  `log10p1` (`math.log10(max(0,x)+1)`) and `math.exp` are abstract parameters
  `lg : Nat → ℚ` and `rexp : ℚ → ℚ` of the scoring stage.
* External capabilities (the YouTube API calls) are function parameters.
* Text processing follows the Python code on `List Char` (Python strings
  compare by code point, exactly as `Char.toNat` comparison).
* Timestamps are modelled by an abstract parser `parseTs : String → Option ℚ`
  mapping an ISO string to an absolute instant in epoch seconds; `none` models
  `datetime.fromisoformat` raising, or producing a naive datetime (whose
  comparison against an aware datetime raises and is caught by the code).
-/

set_option allowUnsafeReducibility true
attribute [semireducible] Rat.add Rat.mul Rat.inv Rat.sub Rat.neg Nat.gcd

/-! ## Character and string helpers -/

/-- ASCII word character, modelling `\w` of the Python regexes on the ASCII
texts this pipeline handles. -/
def isWordChar (c : Char) : Bool := c.isAlpha || c.isDigit || c == '_'

/-- Whitespace as matched by Python `\s` (ASCII range). -/
def isWsChar (c : Char) : Bool :=
  c == ' ' || c == '\t' || c == '\n' || c == '\r' || c == '\x0b' || c == '\x0c'

/-- Lower-case a character list (models `str.lower` / `re.I` on ASCII). -/
def lowerStr (cs : List Char) : List Char := cs.map Char.toLower

/-- Upper-case a character list (models `str.upper` on ASCII). -/
def upperStr (cs : List Char) : List Char := cs.map Char.toUpper

/-- `needle` is a prefix of `hay`. -/
def prefMatches : List Char → List Char → Bool
  | [], _ => true
  | _ :: _, [] => false
  | a :: as, b :: bs => a == b && prefMatches as bs

/-- `needle` occurs as a contiguous substring of `hay` (Python `in`). -/
def hasSub (needle : List Char) : List Char → Bool
  | [] => prefMatches needle []
  | c :: cs => prefMatches needle (c :: cs) || hasSub needle cs

/-- `suf` is a suffix of `cs`. -/
def endsWithL (suf cs : List Char) : Bool := prefMatches suf.reverse cs.reverse

/-- Strict code-point lexicographic order on character lists: exactly Python's
`<` on strings. -/
def listLtB : List Char → List Char → Bool
  | [], [] => false
  | [], _ :: _ => true
  | _ :: _, [] => false
  | a :: as, b :: bs => decide (a < b) || (a == b && listLtB as bs)

/-- Strip leading and trailing whitespace (models `str.strip()`). -/
def stripWs (cs : List Char) : List Char :=
  ((cs.dropWhile isWsChar).reverse.dropWhile isWsChar).reverse

/-! ## Keyword-pattern engine

The Python side uses a handful of fixed regular expressions that are
alternations of literal phrases, `\s*` separators and `\d+` runs, optionally
delimited by word boundaries (`\b`, or the equivalent `(^|\W)…(\W|$)`).
We embed each such pattern as a list of alternatives over this token type. -/

inductive PatTok where
  | lit : List Char → PatTok
  | ws : PatTok
  | num : PatTok
deriving DecidableEq

/-- One alternative of a pattern: a token sequence, and whether the whole
alternative is delimited by word boundaries. -/
structure RxAlt where
  toks : List PatTok
  bounded : Bool
deriving DecidableEq

/-- Match a literal at the head of the input, returning the rest. -/
def matchLit : List Char → List Char → Option (List Char)
  | [], cs => some cs
  | _ :: _, [] => none
  | a :: as, c :: cs => if a == c then matchLit as cs else none

/-- Match a token sequence at the head of the input.  `\s*` and `\d+` can be
consumed greedily because in every pattern used here the following literal
begins with a non-space non-digit character. -/
def matchToks : List PatTok → List Char → Option (List Char)
  | [], cs => some cs
  | .lit l :: ts, cs => (matchLit l cs).bind (matchToks ts)
  | .ws :: ts, cs => matchToks ts (cs.dropWhile isWsChar)
  | .num :: ts, cs =>
    match cs with
    | [] => none
    | c :: cs' => if c.isDigit then matchToks ts ((c :: cs').dropWhile Char.isDigit) else none

/-- The position is a left word boundary: no previous character, or the
previous character is a non-word character. -/
def boundOk (prev : Option Char) : Bool :=
  match prev with
  | none => true
  | some c => !isWordChar c

/-- One alternative matches starting exactly at the current position. -/
def altMatchesAt (alt : RxAlt) (prev : Option Char) (cs : List Char) : Bool :=
  (!alt.bounded || boundOk prev) &&
    (match matchToks alt.toks cs with
     | none => false
     | some rest =>
       !alt.bounded ||
         (match rest with
          | [] => true
          | c :: _ => !isWordChar c))

/-- Search for any alternative at any position (models `re.search`). -/
def searchFrom (alts : List RxAlt) : Option Char → List Char → Bool
  | prev, [] => alts.any (fun a => altMatchesAt a prev [])
  | prev, c :: cs =>
    alts.any (fun a => altMatchesAt a prev (c :: cs)) || searchFrom alts (some c) cs

/-- Case-insensitive search of a pattern in a character list (models
`PATTERN.search(text)` with `re.I`: patterns below are written lower-case). -/
def rxSearch (alts : List RxAlt) (cs : List Char) : Bool :=
  searchFrom alts none (lowerStr cs)

/-- Build a purely literal alternative. -/
def litAlt (s : String) (bounded : Bool) : RxAlt := ⟨[.lit s.toList], bounded⟩

/-- Build an alternative of literals separated by `\s*`. -/
def phraseAlt (ss : List String) (bounded : Bool) : RxAlt :=
  ⟨List.intercalate [PatTok.ws] (ss.map (fun s => [PatTok.lit s.toList])), bounded⟩

/-! ## The fixed patterns of `build_ke_top500.py` (lines 77-84) -/

/-- `(^|\W)(shorts?|#shorts)(\W|$)`, case-insensitive. -/
def SHORTS_RE : List RxAlt :=
  [litAlt "short" true, litAlt "shorts" true, litAlt "#shorts" true]

/-- `\b(highlights?|extended\s*highlights|FT|full\s*time|full\s*match|goal|matchday)\b|\b(\d+\s*-\s*\d+)\b`. -/
def SPORTS_RE : List RxAlt :=
  [litAlt "highlight" true, litAlt "highlights" true,
   phraseAlt ["extended", "highlights"] true,
   litAlt "ft" true,
   phraseAlt ["full", "time"] true,
   phraseAlt ["full", "match"] true,
   litAlt "goal" true, litAlt "matchday" true,
   ⟨[.num, .ws, .lit ['-'], .ws, .num], true⟩]

/-- `\b(sportscast|manchester united|arsenal|liverpool|chelsea)\b`. -/
def CLUBS_RE : List RxAlt :=
  [litAlt "sportscast" true, litAlt "manchester united" true,
   litAlt "arsenal" true, litAlt "liverpool" true, litAlt "chelsea" true]

/-- `(catch(ing)?|expos(e|ing)|confront(ing)?|loyalty\s*test|loyalty\s*challenge|pop\s*the\s*balloon)`:
unbounded substring alternatives; `catch(ing)?` and `confront(ing)?` match
whenever their stem does. -/
def SENSATIONAL_RE : List RxAlt :=
  [litAlt "catch" false, litAlt "expose" false, litAlt "exposing" false,
   litAlt "confront" false,
   phraseAlt ["loyalty", "test"] false,
   phraseAlt ["loyalty", "challenge"] false,
   phraseAlt ["pop", "the", "balloon"] false]

/-- `\b(dj\s*mix|dj\s*set|mixtape|party\s*mix|afrobeat\s*mix|bongo\s*mix|live\s*mix)\b`. -/
def MIX_RE : List RxAlt :=
  [phraseAlt ["dj", "mix"] true, phraseAlt ["dj", "set"] true,
   litAlt "mixtape" true,
   phraseAlt ["party", "mix"] true, phraseAlt ["afrobeat", "mix"] true,
   phraseAlt ["bongo", "mix"] true, phraseAlt ["live", "mix"] true]

/-- `\b(kenya|kenyan|nairob[iy]|mombasa|kisumu|ke\b)\b`. -/
def KENYA_HINTS_RE : List RxAlt :=
  [litAlt "kenya" true, litAlt "kenyan" true, litAlt "nairobi" true,
   litAlt "nairoby" true, litAlt "mombasa" true, litAlt "kisumu" true,
   litAlt "ke" true]

/-- `\b(podcast|interview|talk\s*show|conversation|panel)\b`. -/
def PODCAST_INTERVIEW_RE : List RxAlt :=
  [litAlt "podcast" true, litAlt "interview" true,
   phraseAlt ["talk", "show"] true,
   litAlt "conversation" true, litAlt "panel" true]

/-- `TAG_BLOCKS` (line 82), already lower-case in the source. -/
def TAG_BLOCKS : List String :=
  ["#sportshighlights", "#sports", "#highlights", "#shorts", "#short",
   "sportshighlights", "sports", "highlights", "shorts", "short"]

/-! ## Config thresholds (lines 63-74) -/

def MIN_SUBSCRIBERS : Nat := 5000
def MIN_CHANNEL_VIEWS : Nat := 2000000
def MIN_LONGFORM_SEC : Nat := 660
def MAX_VIDEO_AGE_DAYS : Nat := 365
def MIN_VIDEO_VIEWS : Nat := 10000
def MAX_DISCOVER_RESULTS_PER_QUERY : Nat := 100

/-- `DISCOVERY_QUERIES` (lines 44-60). -/
def DISCOVERY_QUERIES : List String :=
  ["podcast kenya", "kenyan podcast", "nairobi podcast", "kenya talk show",
   "kenyan interviews", "interview kenya", "JKLive", "The Trend NTV",
   "Cleaning The Airwaves", "Lynn Ngugi interview", "Presenter Ali interview",
   "Obinna TV interview", "MIC CHEQUE podcast", "Sandwich Podcast KE",
   "ManTalk Ke podcast"]

/-! ## Small helpers (lines 90-130) -/

/-- `to_int`: the statistics fields arrive as decimal strings; we model them
already parsed as `Option Nat`, with `none` for a missing or unparseable
value, which `to_int` turns into `0`. -/
def to_int (x : Option Nat) : Nat := x.getD 0

/-- Numeric value of a digit run. -/
def digitsToNat (ds : List Char) : Nat := ds.foldl (fun a c => a * 10 + (c.toNat - 48)) 0

/-- Read a non-empty leading digit run. -/
def digitsVal (cs : List Char) : Option (Nat × List Char) :=
  let ds := cs.takeWhile Char.isDigit
  if ds.isEmpty then none else some (digitsToNat ds, cs.dropWhile Char.isDigit)

/-- One optional `(\d+)X` group of the ISO-8601 duration regex; if the digits
are not followed by the expected unit letter the group is absent and the
input is left untouched (regex backtracking). -/
def durGroup (u : Char) (cs : List Char) : Nat × List Char :=
  match digitsVal cs with
  | some (n, d :: rest) => if d == u then (n, rest) else (0, cs)
  | _ => (0, cs)

/-- `iso8601_duration_to_seconds`: `^PT(?:(\d+)H)?(?:(\d+)M)?(?:(\d+)S)?$`,
`None`/empty input and non-matching strings give `none`. -/
def iso8601_duration_to_seconds : Option String → Option Nat
  | none => none
  | some s =>
    match s.toList with
    | 'P' :: 'T' :: rest =>
      let hr := durGroup 'H' rest
      let mr := durGroup 'M' hr.2
      let sr := durGroup 'S' mr.2
      if sr.2.isEmpty then some (hr.1 * 3600 + mr.1 * 60 + sr.1) else none
    | _ => none

/-- `days_since` (lines 125-130): seconds between `now` and the parsed
instant, divided by 86400; `none` when parsing fails. -/
def days_since (parseTs : String → Option ℚ) (now : ℚ) (iso : String) : Option ℚ :=
  (parseTs iso).map (fun t => (now - t) / 86400)

/-! ## Inclusion logic (lines 166-184) -/

/-- `looks_blocked(title, desc, tags)` (lines 166-171). -/
def looks_blocked (title desc : String) (tags : Option (List String)) : Bool :=
  let txt := title.toList ++ '\n' :: desc.toList
  rxSearch SHORTS_RE txt || rxSearch SPORTS_RE txt || rxSearch CLUBS_RE txt ||
  rxSearch SENSATIONAL_RE txt || rxSearch MIX_RE txt ||
  (tags.getD []).any (fun t => TAG_BLOCKS.any (fun b => b.toList == stripWs (lowerStr t.toList)))

/-- `classify_channel(name, desc)` (lines 173-177). -/
def classify_channel (name desc : String) : String :=
  let txt := lowerStr (name.toList ++ '\n' :: desc.toList)
  if hasSub "podcast".toList txt then "podcast"
  else if searchFrom PODCAST_INTERVIEW_RE none txt then "interview"
  else "other"

/-- `is_kenyan(snippet, branding, allow_ids, cid)` (lines 179-184), taking the
fields the Python reads: the branding country, snippet title and description,
the allow set and the channel id. -/
def is_kenyan (country : Option String) (title desc : String)
    (allow : List String) (cid : String) : Bool :=
  upperStr (country.getD "").toList == "KE".toList ||
  rxSearch KENYA_HINTS_RE (title.toList ++ ' ' :: desc.toList) ||
  allow.contains cid

/-! ## Channel data (lines 133-156) -/

/-- One item of the `channels().list` response, restricted to the fields the
script reads; the count statistics are modelled already parsed
(`none` = absent). -/
structure RawChannel where
  id : String
  title : String
  description : String
  country : Option String
  subscriberCount : Option Nat
  viewCount : Option Nat
  videoCount : Option Nat
  uploads : Option String
deriving DecidableEq

structure ChannelCore where
  channel_id : String
  channel_name : String
  channel_url : String
  subscribers : Nat
  video_count : Nat
  views_total : Nat
  country : String
  classification : String
  uploads_playlist_id : Option String
deriving DecidableEq

structure ChannelWithSignals extends ChannelCore where
  uploads_last_90d : Nat
  last_upload_iso : Option String
  last_upload_days : Option ℚ
  latest_kept_video_id : Option String
  latest_kept_title : Option String
  latest_kept_thumb : Option String
  latest_kept_published : Option String
  latest_kept_duration : Option Nat
  latest_kept_views : Option Nat
  score : ℚ := 0
deriving DecidableEq

/-- The channel URL assembled at line 310. -/
def channel_url_of (cid : String) : String := "https://www.youtube.com/channel/" ++ cid

/-- The `ChannelCore` constructed for an accepted channel (lines 307-317). -/
def coreOf (ch : RawChannel) : ChannelCore :=
  { channel_id := ch.id
    channel_name := ch.title
    channel_url := channel_url_of ch.id
    subscribers := to_int ch.subscriberCount
    video_count := to_int ch.videoCount
    views_total := to_int ch.viewCount
    country := String.mk (upperStr (ch.country.getD "").toList)
    classification := classify_channel ch.title ch.description
    uploads_playlist_id := ch.uploads }

/-- `build_channel_core` (lines 280-318).  The argument `fetched` is the
result of the external `list_channels` capability on the candidate ids. -/
def build_channel_core (fetched : List RawChannel) (allow block : List String) :
    List ChannelCore :=
  fetched.filterMap (fun ch =>
    if ch.id == "" || block.contains ch.id then none
    else if !is_kenyan ch.country ch.title ch.description allow ch.id then none
    else if to_int ch.subscriberCount < MIN_SUBSCRIBERS ||
            to_int ch.viewCount < MIN_CHANNEL_VIEWS then none
    else if classify_channel ch.title ch.description == "other" &&
            !allow.contains ch.id then none
    else some (coreOf ch))

/-! ## Video data and `choose_latest_longform` (lines 257-277) -/

/-- One item of the `videos().list` response, restricted to the fields read
by the script; `viewCount` is modelled already parsed. -/
structure Video where
  id : String
  title : String
  description : String
  tags : Option (List String)
  duration : Option String
  publishedAt : Option String
  viewCount : Option Nat
  thumbHigh : Option String
  thumbMed : Option String
deriving DecidableEq

/-- Sort key of `choose_latest_longform`: the publish timestamp string with
`""` default. -/
def pubKey (v : Video) : List Char := (v.publishedAt.getD "").toList

/-- Ordering used for `sorted(videos, key=publishedAt, reverse=True)`:
`a` may precede `b` when `a`'s key is not smaller.  A stable sort under this
relation is exactly Python's stable descending sort. -/
def vidOrder (a b : Video) : Prop := listLtB (pubKey a) (pubKey b) = false

instance : DecidableRel vidOrder := fun _ _ => instDecidableEqBool _ _

/-- The video is too old: published before `now` minus 365 days; a failed
parse means the check raises inside `try` and the video counts as not old. -/
def tooOld (parseTs : String → Option ℚ) (now : ℚ) (pub : String) : Bool :=
  match parseTs pub with
  | some t => decide (t < now - 86400 * (MAX_VIDEO_AGE_DAYS : ℚ))
  | none => false

/-- The scan of `choose_latest_longform` over the already-sorted videos. -/
def pickLongform (parseTs : String → Option ℚ) (now : ℚ) : List Video → Option Video
  | [] => none
  | v :: vs =>
    if (match iso8601_duration_to_seconds v.duration with
        | some d => decide (d < MIN_LONGFORM_SEC)
        | none => false) then pickLongform parseTs now vs
    else if looks_blocked v.title v.description v.tags then pickLongform parseTs now vs
    else if tooOld parseTs now (v.publishedAt.getD "") then pickLongform parseTs now vs
    else if to_int v.viewCount < MIN_VIDEO_VIEWS then pickLongform parseTs now vs
    else some v

/-- `choose_latest_longform(videos)` (lines 257-277). -/
def choose_latest_longform (parseTs : String → Option ℚ) (now : ℚ)
    (videos : List Video) : Option Video :=
  pickLongform parseTs now (videos.insertionSort vidOrder)

/-! ## `enrich_signals` (lines 320-372) -/

/-- The per-video loop of `enrich_signals` counting uploads in the last 90
days and tracking the latest publish instant (lines 333-343). -/
def countAndLast (parseTs : String → Option ℚ) (now : ℚ) :
    List Video → Nat → Option String → Nat × Option String
  | [], n, li => (n, li)
  | v :: vs, n, li =>
    match v.publishedAt with
    | none => countAndLast parseTs now vs n li
    | some pub =>
      if pub == "" then countAndLast parseTs now vs n li
      else
        match parseTs pub with
        | none => countAndLast parseTs now vs n li
        | some dt =>
          let n' := if decide (now - 86400 * 90 ≤ dt) then n + 1 else n
          let upd :=
            match li with
            | none => true
            | some prev =>
              match parseTs prev with
              | some tPrev => decide (tPrev < dt)
              | none => false
          countAndLast parseTs now vs n' (if upd then some pub else li)

/-- `high or medium or ""` thumbnail choice (lines 352-353). -/
def thumbOf (v : Video) : String :=
  let h := v.thumbHigh.getD ""
  if h == "" then v.thumbMed.getD "" else h

/-- The row produced when the channel has no (truthy) uploads playlist. -/
def zeroRow (c : ChannelCore) : ChannelWithSignals :=
  { toChannelCore := c
    uploads_last_90d := 0
    last_upload_iso := none
    last_upload_days := none
    latest_kept_video_id := none
    latest_kept_title := none
    latest_kept_thumb := none
    latest_kept_published := none
    latest_kept_duration := none
    latest_kept_views := none
    score := 0 }

/-- One iteration of `enrich_signals` for a single core row.  `videosOf`
models the composition of the `list_playlist_video_ids` and `list_videos`
capabilities on the uploads playlist id. -/
def enrichOne (videosOf : String → List Video) (parseTs : String → Option ℚ)
    (now : ℚ) (c : ChannelCore) : ChannelWithSignals :=
  match c.uploads_playlist_id with
  | none => zeroRow c
  | some pid =>
    if pid == "" then zeroRow c
    else
      let vids := videosOf pid
      let cl := countAndLast parseTs now vids 0 none
      let lastDays :=
        match cl.2 with
        | none => none
        | some li => if li == "" then none else days_since parseTs now li
      let chosen := choose_latest_longform parseTs now vids
      { toChannelCore := c
        uploads_last_90d := cl.1
        last_upload_iso := cl.2
        last_upload_days := lastDays
        latest_kept_video_id := chosen.map (·.id)
        latest_kept_title := chosen.map (·.title)
        latest_kept_thumb := chosen.map thumbOf
        latest_kept_published := chosen.map (fun v => v.publishedAt.getD "")
        latest_kept_duration := chosen.bind (fun v => iso8601_duration_to_seconds v.duration)
        latest_kept_views := chosen.map (fun v => to_int v.viewCount)
        score := 0 }

/-- `enrich_signals` (lines 320-372): one output row per input core row. -/
def enrich_signals (videosOf : String → List Video) (parseTs : String → Option ℚ)
    (now : ℚ) (cores : List ChannelCore) : List ChannelWithSignals :=
  cores.map (enrichOne videosOf parseTs now)

/-! ## Scoring (lines 375-405) -/

/-- `minmax(values)` (lines 375-380). -/
def minmax (values : List ℚ) : List ℚ :=
  match values with
  | [] => []
  | v :: vs =>
    let lo := vs.foldl min v
    let hi := vs.foldl max v
    if hi ≤ lo then (v :: vs).map (fun _ => 0)
    else (v :: vs).map (fun x => (x - lo) / (hi - lo))

/-- Raw upload-frequency feature `min(1.0, uploads_last_90d / 13.0)`. -/
def f_freq_of (r : ChannelWithSignals) : ℚ := min 1 ((r.uploads_last_90d : ℚ) / 13)

/-- Raw recency feature `exp(-d/45)` with `d = last_upload_days` defaulting
to `9999.0`; `rexp` is the abstract model of `math.exp`. -/
def recency_of (rexp : ℚ → ℚ) (r : ChannelWithSignals) : ℚ :=
  rexp (-((r.last_upload_days.getD 9999) / 45))

/-- `compute_scores(rows)` (lines 382-405), returning the rows with their
scores set (the Python mutates in place).  `lg` is the abstract model of
`log10p1` and `rexp` of `math.exp`. -/
def compute_scores (lg : Nat → ℚ) (rexp : ℚ → ℚ)
    (rows : List ChannelWithSignals) : List ChannelWithSignals :=
  let nh_subs := minmax (rows.map (fun r => lg r.subscribers))
  let nh_views := minmax (rows.map (fun r => lg r.views_total))
  let nh_videos := minmax (rows.map (fun r => lg r.video_count))
  let nh_freq := minmax (rows.map f_freq_of)
  let nh_rec := minmax (rows.map (recency_of rexp))
  let s1 := List.zipWith (fun a b => (25 : ℚ)/100 * a + 25/100 * b) nh_subs nh_views
  let s2 := List.zipWith (fun s c => s + (10 : ℚ)/100 * c) s1 nh_videos
  let s3 := List.zipWith (fun s c => s + (20 : ℚ)/100 * c) s2 nh_freq
  let s4 := List.zipWith (fun s c => s + (20 : ℚ)/100 * c) s3 nh_rec
  List.zipWith (fun r s => { r with score := s }) rows s4

/-! ## Rank writer (lines 408-440, 477-480) -/

/-- Ordering of `enriched.sort(key=lambda r: r.score, reverse=True)`:
`a` may precede `b` when its score is not smaller.  A stable sort under this
relation is exactly Python's stable descending sort, which consults only the
score. -/
def scoreRel (a b : ChannelWithSignals) : Prop := b.score ≤ a.score

instance : DecidableRel scoreRel := fun a b => inferInstanceAs (Decidable (b.score ≤ a.score))

/-- The in-place sort of line 478. -/
def sortByScore (rows : List ChannelWithSignals) : List ChannelWithSignals :=
  rows.insertionSort scoreRel

/-- `top = enriched[:500]` (line 479) after sorting. -/
def mainRank (rows : List ChannelWithSignals) : List ChannelWithSignals :=
  (sortByScore rows).take 500

/-- The fixed-6-decimal rendering `f"{score:.6f}"` of the score, modelled as
the rounded number of micro-units. -/
def roundScore6 (q : ℚ) : ℤ := round (q * 1000000)

/-- One CSV data row (fieldnames of lines 409-415). -/
structure CsvRow where
  rank : Nat
  channel_id : String
  channel_name : String
  channel_url : String
  subscribers : Nat
  video_count : Nat
  views_total : Nat
  country : String
  classification : String
  latest_video_id : String
  latest_video_title : String
  latest_video_thumbnail : String
  latest_video_published_at : String
  latest_video_duration_sec : Option Nat
  latest_video_views : Option Nat
  score : ℤ
  generated_at_utc : String
deriving DecidableEq

/-- `enumerate(rows, start=n)`. -/
def enumFromN (n : Nat) : List α → List (Nat × α)
  | [] => []
  | a :: as => (n, a) :: enumFromN (n + 1) as

/-- `write_csv` (lines 408-440) as the list of data rows it emits; `gen` is
the `now_utc_iso()` timestamp shared by every row. -/
def write_csv (gen : String) (rows : List ChannelWithSignals) : List CsvRow :=
  (enumFromN 1 rows).map (fun p =>
    { rank := p.1
      channel_id := p.2.channel_id
      channel_name := p.2.channel_name
      channel_url := p.2.channel_url
      subscribers := p.2.subscribers
      video_count := p.2.video_count
      views_total := p.2.views_total
      country := p.2.country
      classification := p.2.classification
      latest_video_id := p.2.latest_kept_video_id.getD ""
      latest_video_title := p.2.latest_kept_title.getD ""
      latest_video_thumbnail := p.2.latest_kept_thumb.getD ""
      latest_video_published_at := p.2.latest_kept_published.getD ""
      latest_video_duration_sec := p.2.latest_kept_duration
      latest_video_views := p.2.latest_kept_views
      score := roundScore6 p.2.score
      generated_at_utc := gen })

/-- The snapshot built by `main` from the enriched rows (lines 477-480). -/
def mainSnapshot (gen : String) (rows : List ChannelWithSignals) : List CsvRow :=
  write_csv gen (mainRank rows)

/-- `list(dict.fromkeys(...))` keep-first dedup (lines 458, 460). -/
def dedupFirstAux : List String → List String → List String
  | [], _ => []
  | x :: xs, seen =>
    if x ∈ seen then dedupFirstAux xs seen else x :: dedupFirstAux xs (x :: seen)

def dedupFirst (l : List String) : List String := dedupFirstAux l []

/-! ## Discovery (lines 187-214) and the top-level guard (lines 482-486) -/

/-- Terminal failures of the search capability (quota exhaustion or
authorization refusal), modelling the `HttpError`s the API client raises. -/
inductive DiscoverFail where
  | quotaExceeded
  | forbidden
deriving DecidableEq

/-- One page of `search().list` results: the (possibly missing) channel id of
each item, and the next-page token. -/
structure SearchPage where
  items : List (Option String)
  nextPageToken : Option String
deriving DecidableEq

/-- The inner `for it in res["items"]` loop (lines 202-206): append unseen,
truthy channel ids, breaking once `max_new` ids are accumulated. -/
def addItems (maxNew : Nat) : List (Option String) → List String → List String →
    List String × List String
  | [], ids, seen => (ids, seen)
  | it :: rest, ids, seen =>
    match it with
    | none => addItems maxNew rest ids seen
    | some cid =>
      if cid == "" || seen.contains cid then addItems maxNew rest ids seen
      else
        let ids' := ids ++ [cid]
        if maxNew ≤ ids'.length then (ids', cid :: seen)
        else addItems maxNew rest ids' (cid :: seen)

/-- The `while True` pagination loop of one query (lines 193-211).  `fetch`
models `search().list(...).execute`; an error return models the call raising.
`fuel` bounds the number of pages (the Python loop is unbounded); theorems
assume enough fuel, and exhausted fuel returns the accumulated state. -/
def pageLoop (fetch : String → Option String → Except DiscoverFail SearchPage)
    (q : String) (maxNew : Nat) :
    Nat → Option String → Nat → List String → List String →
    Except DiscoverFail (List String × List String)
  | 0, _, _, ids, seen => .ok (ids, seen)
  | fuel + 1, tok, fetched, ids, seen =>
    match fetch q tok with
    | .error e => .error e
    | .ok page =>
      let st := addItems maxNew page.items ids seen
      let fetched' := fetched + page.items.length
      match page.nextPageToken with
      | none => .ok st
      | some tok' =>
        if tok' == "" || MAX_DISCOVER_RESULTS_PER_QUERY ≤ fetched' ||
           maxNew ≤ st.1.length then .ok st
        else pageLoop fetch q maxNew fuel (some tok') fetched' st.1 st.2

/-- The outer `for q in DISCOVERY_QUERIES` loop (lines 190-213). -/
def queryLoop (fetch : String → Option String → Except DiscoverFail SearchPage)
    (maxNew fuel : Nat) :
    List String → List String → List String → Except DiscoverFail (List String)
  | [], ids, _ => .ok ids
  | q :: qs, ids, seen =>
    match pageLoop fetch q maxNew fuel none 0 ids seen with
    | .error e => .error e
    | .ok st => if maxNew ≤ st.1.length then .ok st.1 else queryLoop fetch maxNew fuel qs st.1 st.2

/-- `discover_channel_ids(y, max_new)` (lines 187-214).  An error signalled by
the fetch capability propagates out of the function (there is no handler
inside it). -/
def discover_channel_ids (fetch : String → Option String → Except DiscoverFail SearchPage)
    (maxNew fuel : Nat) : Except DiscoverFail (List String) :=
  queryLoop fetch maxNew fuel DISCOVERY_QUERIES [] []

/-- The `__main__` wrapper (lines 482-486): any exception escaping `main`
becomes a fatal `sys.exit("[KE500] ERROR: …")`. -/
def runGuard {α} (r : Except DiscoverFail α) : Except String α :=
  match r with
  | .error _ => .error "[KE500] ERROR"
  | .ok a => .ok a

/-! ## Rollup (`rollup_top500.py`) -/

/-- One row of a snapshot's `items` list, restricted to the keys read by
`build_rollup`.  `rank` is `some r` when `it.get("rank")` is an `int`, else
`none`; the string fields carry the `.get(key, default)` defaults. -/
structure SnapItem where
  channel_id : String
  rank : Option ℤ
  channel_name : String
  channel_url : String
  latest_video_id : String
  latest_video_title : String
  latest_video_thumbnail : String
  latest_video_published_at : String
  subscribers : Nat
  video_count : Nat
  country : String
  classification : String
deriving DecidableEq

/-- A parsed snapshot (a dict with an `items` list). -/
structure Snapshot where
  items : List SnapItem
deriving DecidableEq

/-- A file of the history directory: its base name and, when `load_json`
succeeds and the value is a dict with an `items` list, the snapshot. -/
structure HFile where
  name : String
  content : Option Snapshot
deriving DecidableEq

/-- The per-channel accumulator dict of `build_rollup` (lines 87-101); the
write-only `_first_seen` key is omitted. -/
structure Slot where
  channel_id : String
  channel_name : String
  channel_url : String
  latest_video_id : String
  latest_video_title : String
  latest_video_thumbnail : String
  latest_video_published_at : String
  subscribers : Nat
  video_count : Nat
  country : String
  classification : String
  ranks : List ℤ
deriving DecidableEq

/-- The slot created by `setdefault` on first sight of a channel. -/
def initSlot (it : SnapItem) : Slot :=
  { channel_id := it.channel_id
    channel_name := it.channel_name
    channel_url := it.channel_url
    latest_video_id := it.latest_video_id
    latest_video_title := it.latest_video_title
    latest_video_thumbnail := it.latest_video_thumbnail
    latest_video_published_at := it.latest_video_published_at
    subscribers := it.subscribers
    video_count := it.video_count
    country := it.country
    classification := it.classification
    ranks := [] }

/-- Lines 102-110: append the rank, then replace the `latest_video_*`
quadruple when the row's publish string compares strictly greater. -/
def bumpSlot (s : Slot) (it : SnapItem) (rk : ℤ) : Slot :=
  let s1 := { s with ranks := s.ranks ++ [rk] }
  if listLtB s1.latest_video_published_at.toList it.latest_video_published_at.toList then
    { s1 with
      latest_video_id := it.latest_video_id
      latest_video_title := it.latest_video_title
      latest_video_thumbnail := it.latest_video_thumbnail
      latest_video_published_at := it.latest_video_published_at }
  else s1

/-- Insertion-ordered dict lookup. -/
def lookupSlot : List (String × Slot) → String → Option Slot
  | [], _ => none
  | (k, v) :: m, c => if k == c then some v else lookupSlot m c

/-- Replace the value stored under an existing key. -/
def replaceSlot : List (String × Slot) → String → Slot → List (String × Slot)
  | [], _, _ => []
  | (k, v) :: m, c, s => if k == c then (k, s) :: replaceSlot m c s else (k, v) :: replaceSlot m c s

/-- Processing of one snapshot row (lines 82-110): skipped when the channel
id is falsy or the rank is not an int. -/
def rollStep (m : List (String × Slot)) (it : SnapItem) : List (String × Slot) :=
  match it.rank with
  | none => m
  | some rk =>
    if it.channel_id == "" then m
    else
      match lookupSlot m it.channel_id with
      | none => m ++ [(it.channel_id, bumpSlot (initSlot it) it rk)]
      | some s => replaceSlot m it.channel_id (bumpSlot s it rk)

/-- Rollup scoring weights (lines 29-31). -/
def W_AVG : ℚ := 1
def W_BEST : ℚ := 12/10
def W_PRESENCE : ℚ := 8/10

/-- `min(ranks)` of a non-empty list (the `[]` default is unreachable). -/
def minRanks : List ℤ → ℤ
  | [] => 0
  | r :: rs => rs.foldl min r

/-- One output entry of the rollup (lines 115-148), plus the `rank` key
assigned afterwards. -/
structure RollupItem where
  channel_id : String
  channel_name : String
  channel_url : String
  subscribers : Nat
  video_count : Nat
  country : String
  classification : String
  latest_video_id : String
  latest_video_title : String
  latest_video_thumbnail : String
  latest_video_published_at : String
  avg_rank : ℚ
  best_rank : ℤ
  appearances : Nat
  presence : ℚ
  score : ℚ
  rank : Option Nat
deriving DecidableEq

/-- Lines 115-148: derived statistics and score of one channel's slot. -/
def mkRollupItem (N : Nat) (cid : String) (v : Slot) : RollupItem :=
  let ranks := v.ranks
  let avg : ℚ := (ranks.sum : ℚ) / (ranks.length : ℚ)
  let best := minRanks ranks
  let appearances := ranks.length
  let presence : ℚ := (appearances : ℚ) / (N : ℚ)
  { channel_id := cid
    channel_name := v.channel_name
    channel_url := v.channel_url
    subscribers := v.subscribers
    video_count := v.video_count
    country := v.country
    classification := v.classification
    latest_video_id := v.latest_video_id
    latest_video_title := v.latest_video_title
    latest_video_thumbnail := v.latest_video_thumbnail
    latest_video_published_at := v.latest_video_published_at
    avg_rank := avg
    best_rank := best
    appearances := appearances
    presence := presence
    score := W_AVG * (1 / avg) + W_BEST * (1 / (best : ℚ)) + W_PRESENCE * presence
    rank := none }

/-- Ordering of `items.sort(key=lambda x: (-x["score"], x["best_rank"]))`:
`a` may precede `b` when its key tuple is lexicographically not greater. -/
def rollupKey (a b : RollupItem) : Prop :=
  b.score < a.score ∨ (a.score = b.score ∧ a.best_rank ≤ b.best_rank)

instance : DecidableRel rollupKey := fun _ _ => instDecidableOr

/-- The structured rollup output: `range` is `none` until `main` sets it. -/
structure RollupResult where
  generated_at_utc : String
  range : Option String
  items : List RollupItem
deriving DecidableEq

/-- `build_rollup(files)` (lines 60-160).  `nowIso` models
`dt.datetime.utcnow().isoformat()+"Z"`. -/
def build_rollup (nowIso : String) (files : List HFile) : RollupResult :=
  let snapshots := files.filterMap (·.content)
  if snapshots.isEmpty then
    { generated_at_utc := nowIso, range := none, items := [] }
  else
    let allItems := (snapshots.map (·.items)).flatten
    let by_channel := allItems.foldl rollStep []
    let N := snapshots.length
    let items := by_channel.filterMap (fun p =>
      if p.2.ranks.isEmpty then none else some (mkRollupItem N p.1 p.2))
    let top := (items.insertionSort rollupKey).take 500
    { generated_at_utc := nowIso
      range := none
      items := (enumFromN 1 top).map (fun p => { p.2 with rank := some p.1 }) }

/-! ## Dates and the rollup driver (`rollup_top500.py` lines 37-58, 162-175) -/

/-- Value of an ASCII digit. -/
def digitVal (c : Char) : Nat := c.toNat - 48

/-- Gregorian leap year. -/
def isLeap (y : Nat) : Bool := y % 4 == 0 && (y % 100 != 0 || y % 400 == 0)

/-- Days in a month of the Gregorian calendar. -/
def daysInMonth (y m : Nat) : Nat :=
  if m == 2 then (if isLeap y then 29 else 28)
  else if m == 4 || m == 6 || m == 9 || m == 11 then 30 else 31

/-- `datetime.date.fromisoformat`: strict `YYYY-MM-DD`, a valid Gregorian
date with year at least 1. -/
def parseIsoDate (s : String) : Option (Nat × Nat × Nat) :=
  match s.toList with
  | [y1, y2, y3, y4, h1, m1, m2, h2, d1, d2] =>
    if y1.isDigit && y2.isDigit && y3.isDigit && y4.isDigit && h1 == '-' &&
       m1.isDigit && m2.isDigit && h2 == '-' && d1.isDigit && d2.isDigit then
      let y := digitVal y1 * 1000 + digitVal y2 * 100 + digitVal y3 * 10 + digitVal y4
      let m := digitVal m1 * 10 + digitVal m2
      let d := digitVal d1 * 10 + digitVal d2
      if 1 ≤ y && 1 ≤ m && m ≤ 12 && 1 ≤ d && d ≤ daysInMonth y m then
        some (y, m, d)
      else none
    else none
  | _ => none

/-- Day number of a Gregorian date (days-from-civil, epoch 1970-01-01):
the model of `datetime.date` ordering and `timedelta` day arithmetic. -/
def dateOrdinal : Nat × Nat × Nat → ℤ := fun t =>
  let y := t.1
  let m := t.2.1
  let d := t.2.2
  let yAdj := if m ≤ 2 then y - 1 else y
  let era := yAdj / 400
  let yoe := yAdj % 400
  let mp := (m + 9) % 12
  let doy := (153 * mp + 2) / 5 + (d - 1)
  let doe := yoe * 365 + yoe / 4 - yoe / 100 + doy
  (era : ℤ) * 146097 + (doe : ℤ) - 719468

/-- `os.path.splitext` stem for a name ending in `.json`. -/
def stemOf (s : String) : String := String.mk (s.toList.take (s.toList.length - 5))

/-- A directory entry matched by `glob.glob("*.json")`: ends in `.json` and
is not a hidden (dot-prefixed) file. -/
def isHistoryName (s : String) : Bool :=
  (match s.toList with | c :: _ => c != '.' | [] => false) &&
  endsWithL ".json".toList s.toList

/-- Ascending filename order (`sorted` of Python, code-point lexicographic):
`a` may precede `b` when its name is not greater. -/
def nameRel (a b : HFile) : Prop := listLtB b.name.toList a.name.toList = false

instance : DecidableRel nameRel := fun _ _ => instDecidableEqBool _ _

/-- `list_history_files()` (lines 37-41): the `*.json` entries of the
directory listing, sorted by name.  A missing directory is the empty
listing. -/
def list_history_files (dirFiles : List HFile) : List HFile :=
  (dirFiles.filter (fun f => isHistoryName f.name)).insertionSort nameRel

/-- `filter_last_n_days(files, n)` (lines 43-58): keep files whose stem
parses as a date within the inclusive window `[today-(n-1), today]`, and
return them sorted by name. -/
def filter_last_n_days (today : Nat × Nat × Nat) (files : List HFile) (n : Nat) :
    List HFile :=
  (files.filter (fun f =>
    match parseIsoDate (stemOf f.name) with
    | none => false
    | some d =>
      decide (dateOrdinal today - ((n : ℤ) - 1) ≤ dateOrdinal d) &&
      decide (dateOrdinal d ≤ dateOrdinal today))).insertionSort nameRel

/-- `WINDOWS` (lines 24-27) together with the `f"{days}d"` tag computed at
line 171, in dict insertion order. -/
def WINDOWS : List (Nat × String) := [(7, "7d"), (30, "30d")]

/-- `main()` of `rollup_top500.py` (lines 162-175): with no history files it
returns early and writes nothing (`none`); otherwise it writes one tagged
result per window. -/
def rollupMain (nowIso : String) (today : Nat × Nat × Nat) (dirFiles : List HFile) :
    Option (List RollupResult) :=
  let files := list_history_files dirFiles
  if files.isEmpty then none
  else
    some (WINDOWS.map (fun w =>
      { build_rollup nowIso (filter_last_n_days today files w.1) with range := some w.2 }))

/-! ## Derived notions used by the statements -/

/-- The rank of a valid snapshot row (`rank.isSome` holds for valid rows). -/
def rkOf (it : SnapItem) : ℤ := it.rank.getD 0

/-- A snapshot row processed (not skipped) by the rollup: truthy channel id
and an integer rank. -/
def validItem (it : SnapItem) : Bool := !(it.channel_id == "") && it.rank.isSome

/-- All valid rows carrying a given channel id, across the parsed snapshots
of `files`, in processing order. -/
def occurrencesOf (cid : String) (files : List HFile) : List SnapItem :=
  (((files.filterMap (·.content)).map (·.items)).flatten).filter
    (fun it => validItem it && it.channel_id == cid)

/-- Folding one valid occurrence into a slot. -/
def slotFoldStep (s : Slot) (it : SnapItem) : Slot := bumpSlot s it (rkOf it)

/-- Folding one valid occurrence into an optional slot (creation on first
sight). -/
def optBump (s? : Option Slot) (it : SnapItem) : Option Slot :=
  match s? with
  | none => some (slotFoldStep (initSlot it) it)
  | some s => some (slotFoldStep s it)

/-- The slot a channel's occurrence list folds to. -/
def slotOf? (occ : List SnapItem) : Option Slot :=
  match occ with
  | [] => none
  | o :: os => some (os.foldl slotFoldStep (slotFoldStep (initSlot o) o))

/-- The `latest_video_*` quadruple of a snapshot row. -/
def quadOf (it : SnapItem) : String × String × String × String :=
  (it.latest_video_id, it.latest_video_title, it.latest_video_thumbnail,
   it.latest_video_published_at)

/-- Replace the quadruple exactly when the row's publish string compares
strictly greater than the held one. -/
def quadStep (q : String × String × String × String) (it : SnapItem) :
    String × String × String × String :=
  if listLtB q.2.2.2.toList it.latest_video_published_at.toList then quadOf it else q

/-- The quadruple obtained from a channel's occurrences: the first
occurrence's, then replaced only on strictly greater publish strings. -/
def latestFold : List SnapItem → String × String × String × String
  | [] => ("", "", "", "")
  | o :: os => os.foldl quadStep (quadOf o)

/-- The quadruple held by a slot. -/
def slotQuad (s : Slot) : String × String × String × String :=
  (s.latest_video_id, s.latest_video_title, s.latest_video_thumbnail,
   s.latest_video_published_at)

/-- Inclusion predicate of `build_channel_core` as the code implements it:
blocklist, region match, quantitative floor, and content-type classification
with seed-allowlist bypass — and no heuristic-exclusion predicate. -/
def includeChannel (allow block : List String) (ch : RawChannel) : Bool :=
  !(ch.id == "") && !block.contains ch.id &&
  is_kenyan ch.country ch.title ch.description allow ch.id &&
  !decide (to_int ch.subscriberCount < MIN_SUBSCRIBERS) &&
  !decide (to_int ch.viewCount < MIN_CHANNEL_VIEWS) &&
  (!(classify_channel ch.title ch.description == "other") || allow.contains ch.id)

/-! ## Concrete inputs used by counterexamples and witnesses -/

/-- A fetch capability that answers the first discovery query with two ids
and fails with a quota error on every later call. -/
def fetchC1 : String → Option String → Except DiscoverFail SearchPage :=
  fun q tok =>
    if q == "podcast kenya" && tok.isNone then .ok ⟨[some "UC_a", some "UC_b"], none⟩
    else .error .quotaExceeded

/-- A Kenyan channel whose name matches both the sports/highlights and the
club patterns while containing the token `podcast`. -/
def sportsCh : RawChannel :=
  { id := "cX"
    title := "Arsenal Highlights Podcast Kenya"
    description := ""
    country := some "KE"
    subscriberCount := some 100000
    viewCount := some 5000000
    videoCount := some 10
    uploads := some "P" }

/-- Two fully-specified enriched rows with equal score `1/4`, the first with
fewer subscribers. -/
def rowTieA : ChannelWithSignals :=
  { channel_id := "a"
    channel_name := "A"
    channel_url := "ua"
    subscribers := 10
    video_count := 7
    views_total := 3000000
    country := "KE"
    classification := "podcast"
    uploads_playlist_id := none
    uploads_last_90d := 2
    last_upload_iso := none
    last_upload_days := none
    latest_kept_video_id := none
    latest_kept_title := none
    latest_kept_thumb := none
    latest_kept_published := none
    latest_kept_duration := none
    latest_kept_views := none
    score := 1/4 }

def rowTieB : ChannelWithSignals :=
  { rowTieA with
    channel_id := "b"
    channel_name := "B"
    channel_url := "ub"
    subscribers := 1000
    views_total := 2000000 }

/-- The same two channels before scoring (score still 0): the first has
fewer subscribers but more views, all other features equal. -/
def rowRawA : ChannelWithSignals := { rowTieA with score := 0 }

def rowRawB : ChannelWithSignals := { rowTieB with score := 0 }

/-- A core row with an uploads playlist whose single upload has an
unparseable publish timestamp but passes every gate of
`choose_latest_longform`. -/
def coreC10 : ChannelCore :=
  { channel_id := "cid0"
    channel_name := "Nice Channel"
    channel_url := "url0"
    subscribers := 6000
    video_count := 10
    views_total := 3000000
    country := "KE"
    classification := "podcast"
    uploads_playlist_id := some "PL0" }

def vidC10 : Video :=
  { id := "v1"
    title := "Great Conversation"
    description := ""
    tags := none
    duration := some "PT20M"
    publishedAt := some "not-a-date"
    viewCount := some 50000
    thumbHigh := some "th"
    thumbMed := none }

def videosOfC10 : String → List Video := fun _ => [vidC10]

/-- The timestamp parser's behaviour on the strings of `vidC10`:
`"not-a-date"` is not ISO-8601, so `datetime.fromisoformat` raises. -/
def parseTsC10 : String → Option ℚ := fun _ => none

/-- The same core without an uploads playlist. -/
def coreC10b : ChannelCore := { coreC10 with uploads_playlist_id := none }

/-- A history file rejected by the date filter (stem does not parse). -/
def fileC8 : HFile := ⟨"notes.json", none⟩

/-- A one-row snapshot file used to witness the rollup characterization. -/
def fileC7 : HFile :=
  ⟨"2025-01-01.json", some ⟨[⟨"a", some 3, "A", "u", "v", "t", "th",
    "2025-01-01T00:00:00Z", 10, 2, "KE", "podcast"⟩]⟩⟩

/-- Two history files for the `C9` witness: the channel appears in both, the
earlier file carrying the newer video. -/
def fileC9a : HFile :=
  ⟨"2025-01-01.json", some ⟨[⟨"a", some 1, "First Name", "u1", "new", "tn", "thn",
    "2025-06-01T00:00:00Z", 11, 3, "KE", "podcast"⟩]⟩⟩

def fileC9b : HFile :=
  ⟨"2025-01-02.json", some ⟨[⟨"a", some 2, "Second Name", "u2", "old", "to", "tho",
    "2025-05-01T00:00:00Z", 12, 4, "US", "other"⟩]⟩⟩


/-- The rollup entry produced for channel `"a"` from `[fileC7]`. -/
def rollupE7 : RollupItem :=
  ⟨"a", "A", "u", 10, 2, "KE", "podcast", "v", "t", "th", "2025-01-01T00:00:00Z",
   3, 3, 1, 1, 23/15, some 1⟩

/-- The rollup entry produced for channel `"a"` from `[fileC9a, fileC9b]`. -/
def rollupE9 : RollupItem :=
  ⟨"a", "First Name", "u1", 11, 3, "KE", "podcast", "new", "tn", "thn",
   "2025-06-01T00:00:00Z", 3/2, 1, 2, 1, 8/3, some 1⟩

/-! # Theorems -/

/-! ## Facts about the lexicographic string order -/

theorem listLtB_irrefl (l : List Char) : listLtB l l = false := by
  induction l with
  | nil => rfl
  | cons a as ih => simp [listLtB, ih]

theorem listLtB_asymm : ∀ l₁ l₂ : List Char, listLtB l₁ l₂ = true → listLtB l₂ l₁ = false
  | [], [], h => by simp [listLtB] at h
  | [], _ :: _, _ => rfl
  | _ :: _, [], h => by simp [listLtB] at h
  | a :: as, b :: bs, h => by
    simp only [listLtB, Bool.or_eq_true, decide_eq_true_eq, Bool.and_eq_true,
      beq_iff_eq] at h
    rcases h with h | ⟨rfl, h2⟩
    · have h1 : ¬ b < a := lt_asymm h
      have h3 : b ≠ a := ne_of_gt h
      simp [listLtB, h1, h3]
    · have h4 := listLtB_asymm as bs h2
      simp [listLtB, h4]

theorem listLtB_ge_trans : ∀ l₁ l₂ l₃ : List Char,
    listLtB l₂ l₁ = false → listLtB l₃ l₂ = false → listLtB l₃ l₁ = false
  | [], _, l₃, _, _ => by cases l₃ <;> rfl
  | _ :: _, [], _, h₁, _ => by simp [listLtB] at h₁
  | _ :: _, _ :: _, [], _, h₂ => by simp [listLtB] at h₂
  | a :: as, b :: bs, c :: cs, h₁, h₂ => by
    simp only [listLtB, Bool.or_eq_false_iff, Bool.and_eq_false_iff,
      decide_eq_false_iff_not, beq_eq_false_iff_ne, ne_eq] at h₁ h₂ ⊢
    obtain ⟨hba, h₁'⟩ := h₁
    obtain ⟨hcb, h₂'⟩ := h₂
    have hab : a ≤ b := not_lt.mp hba
    have hbc : b ≤ c := not_lt.mp hcb
    refine ⟨not_lt.mpr (hab.trans hbc), ?_⟩
    by_cases hca : c = a
    · subst hca
      have hcb' : b = c := le_antisymm hbc hab
      subst hcb'
      rcases h₁' with h | h
      · exact absurd rfl h
      · rcases h₂' with h' | h'
        · exact absurd rfl h'
        · exact Or.inr (listLtB_ge_trans as bs cs h h')
    · exact Or.inl hca

theorem listLtB_total (l₁ l₂ : List Char) : listLtB l₁ l₂ = false ∨ listLtB l₂ l₁ = false := by
  cases h : listLtB l₁ l₂ with
  | false => exact Or.inl rfl
  | true => exact Or.inr (listLtB_asymm _ _ h)

/-! ## Claim C5: min-max normalization bounds -/

theorem foldl_min_le_init (vs : List ℚ) : ∀ v : ℚ, vs.foldl min v ≤ v := by
  induction vs with
  | nil => exact fun v => le_refl v
  | cons a as ih => exact fun v => le_trans (ih (min v a)) (min_le_left v a)

theorem foldl_min_le (vs : List ℚ) : ∀ v x : ℚ, x ∈ v :: vs → vs.foldl min v ≤ x := by
  induction vs with
  | nil =>
    intro v x hx
    rcases List.mem_singleton.mp hx with rfl
    exact le_refl x
  | cons a as ih =>
    intro v x hx
    show as.foldl min (min v a) ≤ x
    rcases List.mem_cons.mp hx with rfl | hx'
    · exact le_trans (foldl_min_le_init as (min x a)) (min_le_left x a)
    · rcases List.mem_cons.mp hx' with rfl | hx''
      · exact le_trans (foldl_min_le_init as (min v x)) (min_le_right v x)
      · exact ih (min v a) x (List.mem_cons_of_mem _ hx'')

theorem foldl_min_mem (vs : List ℚ) : ∀ v : ℚ, vs.foldl min v ∈ v :: vs := by
  induction vs with
  | nil => exact fun v => List.mem_singleton.mpr rfl
  | cons a as ih =>
    intro v
    show as.foldl min (min v a) ∈ v :: a :: as
    have h := ih (min v a)
    rcases List.mem_cons.mp h with h' | h'
    · rw [h']
      rcases min_choice v a with hm | hm
      · rw [hm]; exact List.mem_cons_self _ _
      · rw [hm]; exact List.mem_cons_of_mem _ (List.mem_cons_self _ _)
    · exact List.mem_cons_of_mem _ (List.mem_cons_of_mem _ h')

theorem le_foldl_max_init (vs : List ℚ) : ∀ v : ℚ, v ≤ vs.foldl max v := by
  induction vs with
  | nil => exact fun v => le_refl v
  | cons a as ih => exact fun v => le_trans (le_max_left v a) (ih (max v a))

theorem le_foldl_max (vs : List ℚ) : ∀ v x : ℚ, x ∈ v :: vs → x ≤ vs.foldl max v := by
  induction vs with
  | nil =>
    intro v x hx
    rcases List.mem_singleton.mp hx with rfl
    exact le_refl x
  | cons a as ih =>
    intro v x hx
    show x ≤ as.foldl max (max v a)
    rcases List.mem_cons.mp hx with rfl | hx'
    · exact le_trans (le_max_left x a) (le_foldl_max_init as (max x a))
    · rcases List.mem_cons.mp hx' with rfl | hx''
      · exact le_trans (le_max_right v x) (le_foldl_max_init as (max v x))
      · exact ih (max v a) x (List.mem_cons_of_mem _ hx'')

theorem foldl_max_mem (vs : List ℚ) : ∀ v : ℚ, vs.foldl max v ∈ v :: vs := by
  induction vs with
  | nil => exact fun v => List.mem_singleton.mpr rfl
  | cons a as ih =>
    intro v
    show as.foldl max (max v a) ∈ v :: a :: as
    have h := ih (max v a)
    rcases List.mem_cons.mp h with h' | h'
    · rw [h']
      rcases max_choice v a with hm | hm
      · rw [hm]; exact List.mem_cons_self _ _
      · rw [hm]; exact List.mem_cons_of_mem _ (List.mem_cons_self _ _)
    · exact List.mem_cons_of_mem _ (List.mem_cons_of_mem _ h')

/-- C5.  For every non-empty value list, each min-max normalized value of
`minmax` lies in `[0,1]`; when not all raw values are equal, the value `0`
and the value `1` are both attained; when all raw values are equal, every
normalized value is `0`. -/
theorem minmax_bounds (values : List ℚ) (hne : values ≠ []) :
    (∀ n ∈ minmax values, 0 ≤ n ∧ n ≤ 1) ∧
    ((∃ a ∈ values, ∃ b ∈ values, a ≠ b) → 0 ∈ minmax values ∧ 1 ∈ minmax values) ∧
    ((∀ a ∈ values, ∀ b ∈ values, a = b) → ∀ n ∈ minmax values, n = 0) := by
  obtain ⟨v, vs, rfl⟩ : ∃ v vs, values = v :: vs := by
    cases values with
    | nil => exact absurd rfl hne
    | cons v vs => exact ⟨v, vs, rfl⟩
  set lo := vs.foldl min v with hlo
  set hi := vs.foldl max v with hhi
  have hlo_mem : lo ∈ v :: vs := foldl_min_mem vs v
  have hhi_mem : hi ∈ v :: vs := foldl_max_mem vs v
  have hlo_le : ∀ x ∈ v :: vs, lo ≤ x := fun x hx => foldl_min_le vs v x hx
  have hle_hi : ∀ x ∈ v :: vs, x ≤ hi := fun x hx => le_foldl_max vs v x hx
  by_cases hcase : hi ≤ lo
  · have hmm : minmax (v :: vs) = (v :: vs).map (fun _ => 0) := by
      simp only [minmax]
      rw [if_pos hcase]
    have hall : ∀ a ∈ v :: vs, ∀ b ∈ v :: vs, a = b := by
      intro a ha b hb
      have h1 : a ≤ lo := le_trans (hle_hi a ha) hcase
      have h2 : b ≤ lo := le_trans (hle_hi b hb) hcase
      have h3 : lo ≤ a := hlo_le a ha
      have h4 : lo ≤ b := hlo_le b hb
      rw [le_antisymm h1 h3, le_antisymm h2 h4]
    refine ⟨?_, ?_, ?_⟩
    · intro n hn
      rw [hmm] at hn
      rcases List.mem_map.mp hn with ⟨x, _, rfl⟩
      norm_num
    · rintro ⟨a, ha, b, hb, hab⟩
      exact absurd (hall a ha b hb) hab
    · intro _ n hn
      rw [hmm] at hn
      rcases List.mem_map.mp hn with ⟨x, _, rfl⟩
      rfl
  · have hlt : lo < hi := not_le.mp hcase
    have hpos : 0 < hi - lo := sub_pos.mpr hlt
    have hmm : minmax (v :: vs) = (v :: vs).map (fun x => (x - lo) / (hi - lo)) := by
      simp only [minmax]
      rw [if_neg hcase]
    refine ⟨?_, ?_, ?_⟩
    · intro n hn
      rw [hmm] at hn
      rcases List.mem_map.mp hn with ⟨x, hx, rfl⟩
      constructor
      · exact div_nonneg (sub_nonneg.mpr (hlo_le x hx)) (le_of_lt hpos)
      · exact (div_le_one hpos).mpr (sub_le_sub_right (hle_hi x hx) lo)
    · intro _
      constructor
      · rw [hmm]
        exact List.mem_map.mpr ⟨lo, hlo_mem, by rw [sub_self, zero_div]⟩
      · rw [hmm]
        exact List.mem_map.mpr ⟨hi, hhi_mem, div_self (ne_of_gt hpos)⟩
    · intro hall
      have : lo = hi := hall lo hlo_mem hi hhi_mem
      exact absurd this (ne_of_lt hlt)

/-- Witness for C5 at the concrete value list `[1, 3]`. -/
theorem minmax_bounds_witness :
    (0 : ℚ) ∈ minmax [1, 3] ∧ (1 : ℚ) ∈ minmax [1, 3] :=
  (minmax_bounds [1, 3] (by decide)).2.1
    ⟨1, by decide, 3, by decide, by norm_num⟩

/-! ## Claim C1: quota failure during discovery -/

theorem addItems_len_le (maxNew : Nat) : ∀ (items : List (Option String)) (ids seen : List String),
    (addItems maxNew items ids seen).1.length ≤ ids.length + items.length := by
  intro items
  induction items with
  | nil =>
    intro ids seen
    simp [addItems]
  | cons it rest ih =>
    intro ids seen
    cases it with
    | none =>
      have := ih ids seen
      simp only [addItems, List.length_cons]
      omega
    | some cid =>
      simp only [addItems, List.length_cons]
      by_cases h1 : (cid == "" || seen.contains cid) = true
      · rw [if_pos h1]
        have := ih ids seen
        omega
      · rw [if_neg h1]
        by_cases h2 : 1500 ≤ (ids ++ [cid]).length
        · by_cases h3 : maxNew ≤ (ids ++ [cid]).length
          · rw [if_pos h3]
            simp only [List.length_append, List.length_singleton]
            omega
          · rw [if_neg h3]
            have := ih (ids ++ [cid]) (cid :: seen)
            simp only [List.length_append, List.length_singleton] at this
            omega
        · by_cases h3 : maxNew ≤ (ids ++ [cid]).length
          · rw [if_pos h3]
            simp only [List.length_append, List.length_singleton]
            omega
          · rw [if_neg h3]
            have := ih (ids ++ [cid]) (cid :: seen)
            simp only [List.length_append, List.length_singleton] at this
            omega

/-- C1 (amended).  A quota/authorization failure signalled partway through
discovery — the first query succeeds, the second fails — propagates out of
`discover_channel_ids` as the error itself: every id accumulated so far is
discarded, and the `__main__` guard turns the escaped exception into the
fatal `[KE500] ERROR` exit, so the run does not continue with a partial id
list. -/
theorem discover_quota_fatal
    (fetch : String → Option String → Except DiscoverFail SearchPage)
    (e : DiscoverFail) (page : SearchPage) (maxNew fuel : Nat)
    (hfuel : 0 < fuel)
    (h1 : fetch "podcast kenya" none = .ok page)
    (h2 : page.nextPageToken = none)
    (hlen : page.items.length < maxNew)
    (h3 : fetch "kenyan podcast" none = .error e) :
    discover_channel_ids fetch maxNew fuel = .error e ∧
    runGuard (discover_channel_ids fetch maxNew fuel) = .error "[KE500] ERROR" := by
  obtain ⟨k, rfl⟩ : ∃ k, fuel = k + 1 := ⟨fuel - 1, by omega⟩
  have hq1 : pageLoop fetch "podcast kenya" maxNew (k + 1) none 0 [] [] =
      .ok (addItems maxNew page.items [] []) := by
    simp only [pageLoop, h1, h2]
  have hlen' : (addItems maxNew page.items [] []).1.length < maxNew := by
    have := addItems_len_le maxNew page.items [] []
    simp only [List.length_nil, Nat.zero_add] at this
    omega
  have hd : discover_channel_ids fetch maxNew (k + 1) = .error e := by
    simp only [discover_channel_ids, DISCOVERY_QUERIES, queryLoop, hq1]
    rw [if_neg (by omega : ¬ maxNew ≤ (addItems maxNew page.items [] []).1.length)]
    simp only [queryLoop, pageLoop, h3]
  refine ⟨hd, ?_⟩
  rw [hd]
  rfl

/-- C1 counterexample: with `fetchC1` the first query accumulates two ids,
the second signals a quota failure, and `discover_channel_ids` returns the
bare error — not the accumulated partial list — after which the run exits
fatally. -/
theorem discover_quota_counterexample :
    discover_channel_ids fetchC1 1500 3 = .error .quotaExceeded ∧
    runGuard (discover_channel_ids fetchC1 1500 3) = .error "[KE500] ERROR" :=
  ⟨rfl, rfl⟩

/-- Witness for C1's amended theorem at the concrete capability `fetchC1`. -/
theorem discover_quota_fatal_witness :
    discover_channel_ids fetchC1 1500 3 = .error .quotaExceeded :=
  (discover_quota_fatal fetchC1 .quotaExceeded ⟨[some "UC_a", some "UC_b"], none⟩ 1500 3
    (by norm_num) rfl rfl (by norm_num) rfl).1

/-! ## Claim C2: the inclusion filter of `build_channel_core` -/

theorem build_channel_core_singleton (allow block : List String) (ch : RawChannel) :
    build_channel_core [ch] allow block =
      if includeChannel allow block ch then [coreOf ch] else [] := by
  by_cases hA : ch.id = "" <;>
  by_cases hB : ch.id ∈ block <;>
  by_cases hC : is_kenyan ch.country ch.title ch.description allow ch.id = true <;>
  by_cases hD : to_int ch.subscriberCount < MIN_SUBSCRIBERS <;>
  by_cases hE : to_int ch.viewCount < MIN_CHANNEL_VIEWS <;>
  by_cases hF : classify_channel ch.title ch.description = "other" <;>
  by_cases hG : ch.id ∈ allow <;>
  simp [build_channel_core, includeChannel, hA, hB, hC, hD, hE, hF, hG]

/-- C2 (amended).  `build_channel_core` keeps exactly the fetched channels
passing, in source order: blocklist membership, region match, the
quantitative floors, and content-type classification with seed-allowlist
bypass — `includeChannel` — preserving input order.  No heuristic-exclusion
predicate appears: the sports/sensational/short-form/mix pattern sets are not
consulted at the channel level. -/
theorem build_channel_core_char (fetched : List RawChannel) (allow block : List String) :
    build_channel_core fetched allow block =
      (fetched.filter (includeChannel allow block)).map coreOf := by
  induction fetched with
  | nil => rfl
  | cons ch rest ih =>
    have hsplit : build_channel_core (ch :: rest) allow block =
        build_channel_core [ch] allow block ++ build_channel_core rest allow block := by
      simp only [build_channel_core]
      rw [show (ch :: rest) = [ch] ++ rest from rfl, List.filterMap_append]
    rw [hsplit, build_channel_core_singleton, ih, List.filter_cons]
    by_cases h : includeChannel allow block ch = true
    · simp [h]
    · simp [h]

/-- C2 counterexample: `sportsCh`'s name matches the sports/highlights
pattern set (and the club pattern), `looks_blocked` is true on its text, yet
`build_channel_core` accepts it — the heuristic exclusion is never applied to
channels, only per-video. -/
theorem heuristic_exclusion_not_applied :
    rxSearch SPORTS_RE "Arsenal Highlights Podcast Kenya".toList = true ∧
    looks_blocked "Arsenal Highlights Podcast Kenya" "" none = true ∧
    build_channel_core [sportsCh] [] [] = [coreOf sportsCh] ∧
    (coreOf sportsCh).classification = "podcast" := by
  refine ⟨by decide, by decide, by decide, by decide⟩

/-! ## Claim C8: rollup with an empty window -/

/-- C8 counterexample: with no history files at all, `main` of
`rollup_top500.py` returns early and produces no output, while the claim
promises an empty tagged output for this case too. -/
theorem rollup_no_files_counterexample :
    rollupMain "T" (2025, 10, 12) [] = none := rfl

/-- C8 (amended).  When history files exist but none fall inside the
trailing window, the rollup still writes, for each window, a well-formed
empty result carrying the window tag; only when `list_history_files` is
empty does `main` return early without writing. -/
theorem rollup_empty_window (nowIso : String) (today : Nat × Nat × Nat)
    (dirFiles : List HFile)
    (hne : list_history_files dirFiles ≠ [])
    (h7 : filter_last_n_days today (list_history_files dirFiles) 7 = [])
    (h30 : filter_last_n_days today (list_history_files dirFiles) 30 = []) :
    rollupMain nowIso today dirFiles =
      some [⟨nowIso, some "7d", []⟩, ⟨nowIso, some "30d", []⟩] := by
  simp only [rollupMain, WINDOWS, List.map_cons, List.map_nil]
  rw [if_neg (by simpa using hne)]
  rw [h7, h30]
  rfl

/-- Witness for C8's amended theorem: one history file whose stem is not a
date, hence outside every window. -/
theorem rollup_empty_window_witness :
    rollupMain "T" (2025, 10, 12) [fileC8] =
      some [⟨"T", some "7d", []⟩, ⟨"T", some "30d", []⟩] :=
  rollup_empty_window "T" (2025, 10, 12) [fileC8] (by decide) (by decide) (by decide)

/-! ## Claim C10: channels without usable upload timestamps -/

/-- C10 counterexample: `coreC10`'s only upload has an unparseable publish
timestamp, so `uploads_last_90d = 0` and the days-since value is missing —
yet the latest-video fields are not empty: the video passes every gate of
`choose_latest_longform`, because the staleness check defaults to "not too
old" when parsing fails. -/
theorem enrich_unparseable_keeps_video :
    (enrichOne videosOfC10 parseTsC10 0 coreC10).uploads_last_90d = 0 ∧
    (enrichOne videosOfC10 parseTsC10 0 coreC10).last_upload_days = none ∧
    (enrichOne videosOfC10 parseTsC10 0 coreC10).latest_kept_video_id = some "v1" ∧
    (enrichOne videosOfC10 parseTsC10 0 coreC10).latest_kept_published = some "not-a-date" := by
  refine ⟨by decide, by decide, by decide, by decide⟩

/-- C10 (amended).  The pipeline always retains such channels: one enriched
row per core row; a missing (or empty) uploads pointer yields the all-empty
signals row; and in `compute_scores` a missing days-since-last-upload is
replaced by 9999, making the raw recency feature `rexp (-(9999/45))`, which
is minimal among rows whose days value does not exceed 9999 whenever `rexp`
is monotone (as `math.exp` is).  However the latest-video fields need not be
empty when only the timestamps are unparseable. -/
theorem enrich_retention_and_recency_floor
    (videosOf : String → List Video) (parseTs : String → Option ℚ) (now : ℚ)
    (cores : List ChannelCore) (c : ChannelCore) (rexp : ℚ → ℚ)
    (r r' : ChannelWithSignals)
    (hnone : c.uploads_playlist_id = none)
    (hr : r.last_upload_days = none)
    (hmono : Monotone rexp)
    (hd : ∀ d : ℚ, r'.last_upload_days = some d → d ≤ 9999) :
    (enrich_signals videosOf parseTs now cores).length = cores.length ∧
    enrichOne videosOf parseTs now c = zeroRow c ∧
    recency_of rexp r = rexp (-(9999 / 45)) ∧
    recency_of rexp r ≤ recency_of rexp r' := by
  refine ⟨by simp [enrich_signals], by simp [enrichOne, hnone], by simp [recency_of, hr], ?_⟩
  simp only [recency_of, hr, Option.getD_none]
  apply hmono
  rcases h' : r'.last_upload_days with _ | d
  · simp
  · have hle := hd d h'
    simp only [Option.getD_some]
    linarith

/-- Witness for C10's amended theorem. -/
theorem enrich_retention_witness :
    enrichOne videosOfC10 parseTsC10 0 coreC10b = zeroRow coreC10b ∧
    recency_of id (zeroRow coreC10b) = -(9999 / 45) := by
  have h := enrich_retention_and_recency_floor videosOfC10 parseTsC10 0 [] coreC10b id
    (zeroRow coreC10b) (zeroRow coreC10b) rfl rfl monotone_id
    (fun d hd => by simp [zeroRow] at hd)
  exact ⟨h.2.1, by simpa using h.2.2.1⟩

/-! ## Claim C6: determinism of scoring and ranking -/

/-- C6.  The Feature & Score Engine and Rank Writer are deterministic: two
runs on the same candidate rows — differing only in the emitted
`generated_at_utc` timestamp — produce the same `write_csv` rows in the same
order with the same 6-decimal rounded scores; every field except the
timestamp agrees. -/
theorem scoring_ranking_idempotent (lg : Nat → ℚ) (rexp : ℚ → ℚ)
    (rows : List ChannelWithSignals) (g1 g2 : String) :
    (mainSnapshot g1 (compute_scores lg rexp rows)).map
        (fun r => { r with generated_at_utc := "" }) =
      (mainSnapshot g2 (compute_scores lg rexp rows)).map
        (fun r => { r with generated_at_utc := "" }) ∧
    (mainSnapshot g1 (compute_scores lg rexp rows)).map
        (fun r => (r.rank, r.channel_id, r.score)) =
      (mainSnapshot g2 (compute_scores lg rexp rows)).map
        (fun r => (r.rank, r.channel_id, r.score)) := by
  constructor <;>
  · simp only [mainSnapshot, write_csv, List.map_map]
    rfl

/-! ## Claim C3: tie handling in the final sort -/

theorem filter_orderedInsert_score (x : ChannelWithSignals) (q : ℚ) :
    ∀ l : List ChannelWithSignals,
    (List.orderedInsert scoreRel x l).filter (fun r => decide (r.score = q)) =
      if x.score = q then x :: l.filter (fun r => decide (r.score = q))
      else l.filter (fun r => decide (r.score = q)) := by
  intro l
  induction l with
  | nil =>
    by_cases hx : x.score = q <;> simp [List.orderedInsert, hx]
  | cons y l ih =>
    simp only [List.orderedInsert]
    by_cases hr : scoreRel x y
    · rw [if_pos hr]
      by_cases hx : x.score = q <;> simp [List.filter_cons, hx]
    · rw [if_neg hr]
      have hxy : x.score < y.score := not_le.mp hr
      simp only [List.filter_cons, ih]
      by_cases hx : x.score = q
      · have hy : ¬ y.score = q := fun h => absurd (hx ▸ h ▸ hxy) (lt_irrefl _)
        simp [hx, hy]
      · simp [hx]

theorem sortByScore_stable_filter (rows : List ChannelWithSignals) (q : ℚ) :
    (sortByScore rows).filter (fun r => decide (r.score = q)) =
      rows.filter (fun r => decide (r.score = q)) := by
  simp only [sortByScore]
  induction rows with
  | nil => rfl
  | cons x l ih =>
    simp only [List.insertionSort]
    rw [filter_orderedInsert_score, List.filter_cons]
    by_cases hx : x.score = q
    · simp [hx, ih]
    · simp [hx, ih]

theorem minmax_pair_lt (a b : ℚ) (h : a < b) : minmax [a, b] = [0, 1] := by
  have hmin : min a b = a := min_eq_left h.le
  have hmax : max a b = b := max_eq_right h.le
  have hne : b - a ≠ 0 := sub_ne_zero.mpr (ne_of_gt h)
  simp only [minmax, List.foldl_cons, List.foldl_nil, hmin, hmax]
  rw [if_neg (not_le.mpr h)]
  simp [sub_self, div_self hne]

theorem minmax_pair_gt (a b : ℚ) (h : b < a) : minmax [a, b] = [1, 0] := by
  have hmin : min a b = b := min_eq_right h.le
  have hmax : max a b = a := max_eq_left h.le
  have hne : a - b ≠ 0 := sub_ne_zero.mpr (ne_of_gt h)
  simp only [minmax, List.foldl_cons, List.foldl_nil, hmin, hmax]
  rw [if_neg (not_le.mpr h)]
  simp [sub_self, div_self hne]

theorem minmax_pair_eq (a : ℚ) : minmax [a, a] = [0, 0] := by
  simp [minmax]

/-- C3 (amended).  The final ranking sort (line 478) orders rows by
descending composite score only, as a stable sort: it permutes the rows into
descending-score order while rows of any fixed score keep their insertion
order, and no subscriber, view or video count is consulted.  Equal composite
scores with differing subscriber counts are reachable: with any injective
monotone `lg`, two channels whose subscriber and view features exactly offset
each other tie at score 1/4. -/
theorem sortByScore_score_only (rows : List ChannelWithSignals) (q : ℚ)
    (lg : Nat → ℚ) (rexp : ℚ → ℚ)
    (h10 : lg 10 < lg 1000) (h20 : lg 2000000 < lg 3000000) :
    List.Sorted scoreRel (sortByScore rows) ∧
    (sortByScore rows).Perm rows ∧
    (sortByScore rows).filter (fun r => decide (r.score = q)) =
      rows.filter (fun r => decide (r.score = q)) ∧
    (compute_scores lg rexp [rowRawA, rowRawB]).map (·.score) = [1/4, 1/4] := by
  haveI : IsTotal ChannelWithSignals scoreRel := ⟨fun a b => le_total b.score a.score⟩
  haveI : IsTrans ChannelWithSignals scoreRel := ⟨fun _ _ _ h1 h2 => le_trans h2 h1⟩
  refine ⟨List.sorted_insertionSort scoreRel rows, List.perm_insertionSort scoreRel rows,
    sortByScore_stable_filter rows q, ?_⟩
  have hsubs : minmax [lg 10, lg 1000] = [0, 1] := minmax_pair_lt _ _ h10
  have hviews : minmax [lg 3000000, lg 2000000] = [1, 0] := minmax_pair_gt _ _ h20
  have hvids : minmax [lg 7, lg 7] = [0, 0] := minmax_pair_eq _
  have hfreq : minmax [min 1 (((2 : ℕ) : ℚ) / 13), min 1 (((2 : ℕ) : ℚ) / 13)] = [0, 0] :=
    minmax_pair_eq _
  have hrec : minmax [rexp (-(9999 / 45)), rexp (-(9999 / 45))] = [0, 0] := minmax_pair_eq _
  simp only [compute_scores, rowRawA, rowRawB, rowTieA, rowTieB, f_freq_of, recency_of,
    List.map_cons, List.map_nil, Option.getD_none]
  rw [hsubs, hviews, hvids, hfreq, hrec]
  simp only [List.zipWith, List.map_cons, List.map_nil]
  norm_num

/-- Witness for C3's amended theorem: the tie is realized with `lg` the
rational embedding of the counts. -/
theorem sortByScore_score_only_witness :
    (compute_scores (fun n => (n : ℚ)) (fun _ => 1) [rowRawA, rowRawB]).map (·.score) =
      [1/4, 1/4] :=
  (sortByScore_score_only [] 0 (fun n => (n : ℚ)) (fun _ => 1)
    (by norm_num) (by norm_num)).2.2.2

/-- C3 counterexample: `rowTieA` and `rowTieB` carry equal score `1/4` and
the first has far fewer subscribers (10 against 1000), yet the final sort
keeps insertion order — it does not place the higher-subscriber row first as
the claimed tie-break would. -/
theorem equal_score_no_subscriber_tiebreak :
    rowTieA.score = rowTieB.score ∧
    rowTieA.subscribers < rowTieB.subscribers ∧
    sortByScore [rowTieA, rowTieB] = [rowTieA, rowTieB] ∧
    sortByScore [rowTieA, rowTieB] ≠ [rowTieB, rowTieA] := by
  refine ⟨by decide, by decide, by decide, by decide⟩

/-! ## Claim C4: dense ranks and one row per id -/

theorem enumFromN_map_fst : ∀ (n : Nat) (l : List α),
    (enumFromN n l).map Prod.fst = List.range' n l.length := by
  intro n l
  induction l generalizing n with
  | nil => rfl
  | cons a as ih =>
    show n :: (enumFromN (n + 1) as).map Prod.fst = List.range' n (as.length + 1)
    rw [List.range'_succ, ih]

theorem map_snd_enumFromN (f : α → β) : ∀ (n : Nat) (l : List α),
    (enumFromN n l).map (fun p => f p.2) = l.map f := by
  intro n l
  induction l generalizing n with
  | nil => rfl
  | cons a as ih =>
    show f a :: (enumFromN (n + 1) as).map (fun p => f p.2) = f a :: as.map f
    rw [ih]

theorem dedupFirstAux_nodup : ∀ l seen : List String,
    (dedupFirstAux l seen).Nodup ∧ ∀ x ∈ dedupFirstAux l seen, x ∉ seen := by
  intro l
  induction l with
  | nil => intro seen; exact ⟨List.nodup_nil, fun x hx => absurd hx (List.not_mem_nil x)⟩
  | cons a as ih =>
    intro seen
    by_cases h : a ∈ seen
    · simpa [dedupFirstAux, h] using ih seen
    · obtain ⟨ihnd, ihns⟩ := ih (a :: seen)
      refine ⟨?_, ?_⟩
      · simp only [dedupFirstAux, if_neg h]
        exact List.nodup_cons.mpr
          ⟨fun hmem' => (ihns a hmem') (List.mem_cons_self a seen), ihnd⟩
      · intro x hx
        simp only [dedupFirstAux, if_neg h] at hx
        rcases List.mem_cons.mp hx with rfl | hx'
        · exact h
        · exact fun hseen => (ihns x hx') (List.mem_cons_of_mem a hseen)

theorem dedupFirst_nodup (l : List String) : (dedupFirst l).Nodup :=
  (dedupFirstAux_nodup l []).1

/-- C4.  The emitted ranks are exactly `1, 2, …, K` in order, with
`K = min(number of surviving rows, 500)` — a dense permutation of `1..K` —
and, when the surviving rows carry pairwise distinct CandidateIds, so do the
output rows: exactly one row per distinct CandidateId.  (The id-distinctness
premise is what `main` establishes upstream by `dict.fromkeys` dedup —
`dedupFirst l` is always duplicate-free — together with the fetch capability
returning one record per id.) -/
theorem snapshot_rank_dense (rows : List ChannelWithSignals) (g : String)
    (l : List String)
    (hnd : (rows.map (·.channel_id)).Nodup) :
    (mainSnapshot g rows).map (·.rank) = List.range' 1 (min rows.length 500) ∧
    ((mainSnapshot g rows).map (·.channel_id)).Nodup ∧
    (dedupFirst l).Nodup := by
  refine ⟨?_, ?_, dedupFirst_nodup l⟩
  · have h1 : (mainSnapshot g rows).map (·.rank) =
        (enumFromN 1 (mainRank rows)).map Prod.fst := by
      simp only [mainSnapshot, write_csv, List.map_map]
      rfl
    rw [h1, enumFromN_map_fst]
    have h2 : (mainRank rows).length = min rows.length 500 := by
      simp only [mainRank, List.length_take, sortByScore]
      rw [(List.perm_insertionSort scoreRel rows).length_eq]
      exact Nat.min_comm _ _
    rw [h2]
  · have h2 : (mainSnapshot g rows).map (·.channel_id) =
        (mainRank rows).map (·.channel_id) := by
      simp only [mainSnapshot, write_csv, List.map_map]
      exact map_snd_enumFromN (·.channel_id) 1 (mainRank rows)
    rw [h2]
    have hperm : ((sortByScore rows).map (·.channel_id)).Perm (rows.map (·.channel_id)) :=
      (List.perm_insertionSort scoreRel rows).map (·.channel_id)
    have hnodup2 : ((sortByScore rows).map (·.channel_id)).Nodup :=
      hperm.nodup_iff.mpr hnd
    have h3 : (mainRank rows).map (·.channel_id) =
        ((sortByScore rows).map (·.channel_id)).take 500 := by
      simp only [mainRank]
      exact List.map_take _ _ _
    rw [h3]
    exact List.Nodup.sublist (List.take_sublist 500 _) hnodup2

/-- Witness for C4 at two concrete surviving rows. -/
theorem snapshot_rank_dense_witness :
    (mainSnapshot "T" [rowTieA, rowTieB]).map (·.rank) = [1, 2] ∧
    ((mainSnapshot "T" [rowTieA, rowTieB]).map (·.channel_id)).Nodup := by
  have h := snapshot_rank_dense [rowTieA, rowTieB] "T" [] (by decide)
  refine ⟨h.1.trans (by decide), h.2.1⟩

/-! ## The rollup fold machinery (claims C7 and C9) -/

theorem lookupSlot_append (k : String) (s : Slot) (c : String) :
    ∀ m : List (String × Slot),
    lookupSlot (m ++ [(k, s)]) c =
      match lookupSlot m c with
      | some v => some v
      | none => if k == c then some s else none := by
  intro m
  induction m with
  | nil => rfl
  | cons p m ih =>
    obtain ⟨k', v'⟩ := p
    by_cases h : (k' == c) = true
    · simp [lookupSlot, h]
    · simp only [List.cons_append, lookupSlot, if_neg h]
      exact ih

theorem lookupSlot_replace_ne (k : String) (s : Slot) (c : String) (hne : (k == c) = false) :
    ∀ m : List (String × Slot), lookupSlot (replaceSlot m k s) c = lookupSlot m c := by
  intro m
  induction m with
  | nil => rfl
  | cons p m ih =>
    obtain ⟨k', v'⟩ := p
    by_cases h : (k' == k) = true
    · have hkc : (k' == c) = false := by
        have h1 : k' = k := by simpa using h
        subst h1
        exact hne
      simp only [replaceSlot, if_pos h, lookupSlot, hkc]
      simp only [Bool.false_eq_true, if_false]
      exact ih
    · simp only [replaceSlot, if_neg h, lookupSlot]
      by_cases h2 : (k' == c) = true
      · simp [h2]
      · simp only [h2, Bool.false_eq_true, if_false]
        exact ih

theorem lookupSlot_replace_eq (k : String) (s : Slot) :
    ∀ m : List (String × Slot), lookupSlot m k ≠ none →
    lookupSlot (replaceSlot m k s) k = some s := by
  intro m
  induction m with
  | nil => intro h; exact absurd rfl h
  | cons p m ih =>
    obtain ⟨k', v'⟩ := p
    intro h
    by_cases h2 : (k' == k) = true
    · simp [replaceSlot, lookupSlot, h2]
    · simp only [lookupSlot, h2, Bool.false_eq_true, if_false] at h
      simp only [replaceSlot, if_neg h2, lookupSlot, h2, Bool.false_eq_true, if_false]
      exact ih h

theorem foldl_optBump_some (occ : List SnapItem) : ∀ s : Slot,
    occ.foldl optBump (some s) = some (occ.foldl slotFoldStep s) := by
  induction occ with
  | nil => intro s; rfl
  | cons o os ih => intro s; exact ih (slotFoldStep s o)

theorem foldl_optBump_none (occ : List SnapItem) :
    occ.foldl optBump none = slotOf? occ := by
  cases occ with
  | nil => rfl
  | cons o os =>
    show os.foldl optBump (optBump none o) = _
    simp only [optBump, slotOf?]
    exact foldl_optBump_some os _

theorem rollStep_of_invalid (m : List (String × Slot)) (it : SnapItem)
    (h : validItem it = false) : rollStep m it = m := by
  cases hrk : it.rank with
  | none => simp [rollStep, hrk]
  | some rk =>
    have hid : (it.channel_id == "") = true := by
      simp only [validItem, hrk, Option.isSome_some, Bool.and_true, Bool.not_eq_eq_eq_not,
        Bool.not_false] at h
      exact h
    simp [rollStep, hrk, hid]

theorem lookup_foldl_rollStep (cid : String) :
    ∀ (its : List SnapItem) (m : List (String × Slot)),
    lookupSlot (its.foldl rollStep m) cid =
      (its.filter (fun it => validItem it && it.channel_id == cid)).foldl optBump
        (lookupSlot m cid) := by
  intro its
  induction its with
  | nil => intro m; rfl
  | cons it its ih =>
    intro m
    rw [List.foldl_cons, ih, List.filter_cons]
    by_cases hv : (validItem it && it.channel_id == cid) = true
    · rw [if_pos hv, List.foldl_cons]
      obtain ⟨hval, hcid⟩ := Bool.and_eq_true_iff.mp hv
      have hcid' : it.channel_id = cid := by simpa using hcid
      have hid : (it.channel_id == "") = false := by
        simp only [validItem, Bool.and_eq_true, Bool.not_eq_eq_eq_not, Bool.not_true] at hval
        exact hval.1
      obtain ⟨rk, hrk⟩ := Option.isSome_iff_exists.mp
        (by simp only [validItem, Bool.and_eq_true] at hval; exact hval.2)
      have hrkOf : rkOf it = rk := by simp [rkOf, hrk]
      congr 1
      simp only [rollStep, hrk, hid, Bool.false_eq_true, if_false]
      cases hl : lookupSlot m it.channel_id with
      | none =>
        rw [← hcid', hl, lookupSlot_append]
        rw [hl]
        simp [optBump, slotFoldStep, hrkOf]
      | some s =>
        rw [← hcid', hl]
        have := lookupSlot_replace_eq it.channel_id (bumpSlot s it rk) m (by rw [hl]; exact fun h => Option.noConfusion h)
        rw [this]
        simp only [optBump, slotFoldStep, hrkOf]
    · rw [if_neg hv]
      by_cases hval : validItem it = true
      · have hne : (it.channel_id == cid) = false := by
          cases hcc : (it.channel_id == cid) with
          | false => rfl
          | true => exact absurd (by simp [hval, hcc]) hv
        have hid : (it.channel_id == "") = false := by
          simp only [validItem, Bool.and_eq_true, Bool.not_eq_eq_eq_not, Bool.not_true] at hval
          exact hval.1
        obtain ⟨rk, hrk⟩ := Option.isSome_iff_exists.mp
          (by simp only [validItem, Bool.and_eq_true] at hval; exact hval.2)
        congr 1
        simp only [rollStep, hrk, hid, Bool.false_eq_true, if_false]
        cases hl : lookupSlot m it.channel_id with
        | none =>
          rw [lookupSlot_append]
          cases hl2 : lookupSlot m cid with
          | none => simp [hne]
          | some v => simp
        | some s => exact lookupSlot_replace_ne it.channel_id (bumpSlot s it rk) cid hne m
      · have hval' : validItem it = false := by
          cases h : validItem it with
          | false => rfl
          | true => exact absurd h hval
        rw [rollStep_of_invalid m it hval']

theorem bumpSlot_ranks (s : Slot) (it : SnapItem) (rk : ℤ) :
    (bumpSlot s it rk).ranks = s.ranks ++ [rk] := by
  simp only [bumpSlot]
  split <;> rfl

theorem bumpSlot_fields (s : Slot) (it : SnapItem) (rk : ℤ) :
    (bumpSlot s it rk).channel_id = s.channel_id ∧
    (bumpSlot s it rk).channel_name = s.channel_name ∧
    (bumpSlot s it rk).channel_url = s.channel_url ∧
    (bumpSlot s it rk).subscribers = s.subscribers ∧
    (bumpSlot s it rk).video_count = s.video_count ∧
    (bumpSlot s it rk).country = s.country ∧
    (bumpSlot s it rk).classification = s.classification := by
  simp only [bumpSlot]
  split <;> exact ⟨rfl, rfl, rfl, rfl, rfl, rfl, rfl⟩

theorem bumpSlot_quad (s : Slot) (it : SnapItem) (rk : ℤ) :
    slotQuad (bumpSlot s it rk) = quadStep (slotQuad s) it := by
  simp only [bumpSlot, quadStep, slotQuad, quadOf]
  split <;> rfl

theorem slotFold_char (os : List SnapItem) : ∀ s : Slot,
    (os.foldl slotFoldStep s).ranks = s.ranks ++ os.map rkOf ∧
    (os.foldl slotFoldStep s).channel_id = s.channel_id ∧
    (os.foldl slotFoldStep s).channel_name = s.channel_name ∧
    (os.foldl slotFoldStep s).channel_url = s.channel_url ∧
    (os.foldl slotFoldStep s).subscribers = s.subscribers ∧
    (os.foldl slotFoldStep s).video_count = s.video_count ∧
    (os.foldl slotFoldStep s).country = s.country ∧
    (os.foldl slotFoldStep s).classification = s.classification ∧
    slotQuad (os.foldl slotFoldStep s) = os.foldl quadStep (slotQuad s) := by
  induction os with
  | nil => intro s; simp
  | cons o os ih =>
    intro s
    have h := ih (slotFoldStep s o)
    have hb := bumpSlot_fields s o (rkOf o)
    refine ⟨?_, ?_, ?_, ?_, ?_, ?_, ?_, ?_, ?_⟩
    · rw [List.foldl_cons, h.1]
      show (bumpSlot s o (rkOf o)).ranks ++ os.map rkOf = s.ranks ++ (o :: os).map rkOf
      rw [bumpSlot_ranks]
      simp
    · rw [List.foldl_cons, h.2.1]; exact hb.1
    · rw [List.foldl_cons, h.2.2.1]; exact hb.2.1
    · rw [List.foldl_cons, h.2.2.2.1]; exact hb.2.2.1
    · rw [List.foldl_cons, h.2.2.2.2.1]; exact hb.2.2.2.1
    · rw [List.foldl_cons, h.2.2.2.2.2.1]; exact hb.2.2.2.2.1
    · rw [List.foldl_cons, h.2.2.2.2.2.2.1]; exact hb.2.2.2.2.2.1
    · rw [List.foldl_cons, h.2.2.2.2.2.2.2.1]; exact hb.2.2.2.2.2.2
    · rw [List.foldl_cons, h.2.2.2.2.2.2.2.2]
      show os.foldl quadStep (slotQuad (bumpSlot s o (rkOf o))) = (o :: os).foldl quadStep (slotQuad s)
      rw [bumpSlot_quad, List.foldl_cons]

theorem slotOf_char (o : SnapItem) (os : List SnapItem) (s : Slot)
    (h : slotOf? (o :: os) = some s) :
    s.ranks = (o :: os).map rkOf ∧
    s.channel_id = o.channel_id ∧
    s.channel_name = o.channel_name ∧
    s.channel_url = o.channel_url ∧
    s.subscribers = o.subscribers ∧
    s.video_count = o.video_count ∧
    s.country = o.country ∧
    s.classification = o.classification ∧
    slotQuad s = latestFold (o :: os) := by
  have hs : s = os.foldl slotFoldStep (slotFoldStep (initSlot o) o) := by
    simp only [slotOf?] at h
    exact (Option.some.inj h).symm
  subst hs
  have h := slotFold_char os (slotFoldStep (initSlot o) o)
  have h0ranks : (slotFoldStep (initSlot o) o).ranks = [rkOf o] := by
    show (bumpSlot (initSlot o) o (rkOf o)).ranks = [rkOf o]
    rw [bumpSlot_ranks]
    rfl
  have h0fields :
      (slotFoldStep (initSlot o) o).channel_id = (initSlot o).channel_id ∧
      (slotFoldStep (initSlot o) o).channel_name = (initSlot o).channel_name ∧
      (slotFoldStep (initSlot o) o).channel_url = (initSlot o).channel_url ∧
      (slotFoldStep (initSlot o) o).subscribers = (initSlot o).subscribers ∧
      (slotFoldStep (initSlot o) o).video_count = (initSlot o).video_count ∧
      (slotFoldStep (initSlot o) o).country = (initSlot o).country ∧
      (slotFoldStep (initSlot o) o).classification = (initSlot o).classification :=
    bumpSlot_fields (initSlot o) o (rkOf o)
  have h0quad : slotQuad (slotFoldStep (initSlot o) o) = quadOf o := by
    show slotQuad (bumpSlot (initSlot o) o (rkOf o)) = quadOf o
    rw [bumpSlot_quad]
    simp only [quadStep, slotQuad, initSlot, quadOf, listLtB_irrefl, Bool.false_eq_true, if_false]
  refine ⟨?_, ?_, ?_, ?_, ?_, ?_, ?_, ?_, ?_⟩
  · rw [h.1, h0ranks]; rfl
  · rw [h.2.1, h0fields.1]; rfl
  · rw [h.2.2.1, h0fields.2.1]; rfl
  · rw [h.2.2.2.1, h0fields.2.2.1]; rfl
  · rw [h.2.2.2.2.1, h0fields.2.2.2.1]; rfl
  · rw [h.2.2.2.2.2.1, h0fields.2.2.2.2.1]; rfl
  · rw [h.2.2.2.2.2.2.1, h0fields.2.2.2.2.2.1]; rfl
  · rw [h.2.2.2.2.2.2.2.1, h0fields.2.2.2.2.2.2]; rfl
  · rw [h.2.2.2.2.2.2.2.2, h0quad]; rfl

theorem mem_enumFromN : ∀ (n : Nat) (l : List α) (p : Nat × α), p ∈ enumFromN n l → p.2 ∈ l := by
  intro n l
  induction l generalizing n with
  | nil => intro p hp; exact absurd hp (List.not_mem_nil p)
  | cons a as ih =>
    intro p hp
    rcases List.mem_cons.mp hp with rfl | hp'
    · exact List.mem_cons_self a as
    · exact List.mem_cons_of_mem a (ih (n + 1) p hp')

theorem enumFromN_length : ∀ (n : Nat) (l : List α), (enumFromN n l).length = l.length := by
  intro n l
  induction l generalizing n with
  | nil => rfl
  | cons a as ih =>
    show (enumFromN (n + 1) as).length + 1 = as.length + 1
    rw [ih]

theorem pairwise_enumFromN_map {R : α → α → Prop} {S : β → β → Prop} (f : Nat × α → β)
    (hf : ∀ (i : Nat) (a : α) (j : Nat) (b : α), R a b → S (f (i, a)) (f (j, b))) :
    ∀ (n : Nat) (l : List α), List.Pairwise R l → List.Pairwise S ((enumFromN n l).map f) := by
  intro n l
  induction l generalizing n with
  | nil => intro _; exact List.Pairwise.nil
  | cons a as ih =>
    intro h
    obtain ⟨ha, htail⟩ := List.pairwise_cons.mp h
    refine List.pairwise_cons.mpr ⟨?_, ih (n + 1) htail⟩
    intro y hy
    rcases List.mem_map.mp hy with ⟨p, hp, rfl⟩
    exact hf n a p.1 p.2 (ha p.2 (mem_enumFromN _ _ _ hp))

theorem lookupSlot_none_iff (c : String) : ∀ m : List (String × Slot),
    lookupSlot m c = none ↔ c ∉ m.map Prod.fst := by
  intro m
  induction m with
  | nil => simp [lookupSlot]
  | cons p m ih =>
    obtain ⟨k', v'⟩ := p
    by_cases h : (k' == c) = true
    · have : k' = c := by simpa using h
      subst this
      simp [lookupSlot]
    · have hne : ¬ k' = c := by simpa using h
      simp only [lookupSlot, h, Bool.false_eq_true, if_false, List.map_cons, List.mem_cons]
      rw [ih]
      constructor
      · intro h1 h2
        rcases h2 with h2 | h2
        · exact hne h2.symm
        · exact h1 h2
      · intro h1 h2
        exact h1 (Or.inr h2)

theorem replaceSlot_map_fst (k : String) (s : Slot) : ∀ m : List (String × Slot),
    (replaceSlot m k s).map Prod.fst = m.map Prod.fst := by
  intro m
  induction m with
  | nil => rfl
  | cons p m ih =>
    obtain ⟨k', v'⟩ := p
    by_cases h : (k' == k) = true
    · simp only [replaceSlot, if_pos h, List.map_cons, ih]
    · simp only [replaceSlot, if_neg h, List.map_cons, ih]

theorem rollStep_keys_nodup (m : List (String × Slot)) (it : SnapItem)
    (h : (m.map Prod.fst).Nodup) : ((rollStep m it).map Prod.fst).Nodup := by
  cases hrk : it.rank with
  | none => simpa [rollStep, hrk] using h
  | some rk =>
    by_cases hid : (it.channel_id == "") = true
    · simpa [rollStep, hrk, hid] using h
    · simp only [rollStep, hrk, hid, Bool.false_eq_true, if_false]
      cases hl : lookupSlot m it.channel_id with
      | none =>
        have hnotin : it.channel_id ∉ m.map Prod.fst := (lookupSlot_none_iff _ m).mp hl
        rw [List.map_append]
        rw [List.nodup_append]
        refine ⟨h, List.nodup_singleton _, ?_⟩
        intro x hx hx2
        rcases List.mem_singleton.mp hx2 with rfl
        exact hnotin hx
      | some s =>
        rw [replaceSlot_map_fst]
        exact h

theorem foldl_rollStep_keys_nodup : ∀ (its : List SnapItem) (m : List (String × Slot)),
    (m.map Prod.fst).Nodup → (((its.foldl rollStep m).map Prod.fst)).Nodup := by
  intro its
  induction its with
  | nil => intro m h; exact h
  | cons it its ih =>
    intro m h
    exact ih (rollStep m it) (rollStep_keys_nodup m it h)

theorem lookupSlot_of_mem (c : String) (s : Slot) : ∀ m : List (String × Slot),
    (m.map Prod.fst).Nodup → (c, s) ∈ m → lookupSlot m c = some s := by
  intro m
  induction m with
  | nil => intro _ h; exact absurd h (List.not_mem_nil _)
  | cons p m ih =>
    obtain ⟨k', v'⟩ := p
    intro hnd hmem
    have hnd2 := List.nodup_cons.mp (show (k' :: m.map Prod.fst).Nodup by simpa using hnd)
    rcases List.mem_cons.mp hmem with heq | hmem'
    · have h1 : c = k' := congrArg Prod.fst heq
      have h2 : s = v' := congrArg Prod.snd heq
      subst h1
      subst h2
      simp [lookupSlot]
    · have hcin : c ∈ m.map Prod.fst := List.mem_map.mpr ⟨(c, s), hmem', rfl⟩
      have hne : ¬ (k' == c) = true := by
        intro hb
        have hkc : k' = c := by simpa using hb
        exact hnd2.1 (hkc ▸ hcin)
      show (if (k' == c) = true then some v' else lookupSlot m c) = some s
      rw [if_neg hne]
      exact ih hnd2.2 hmem'

theorem build_rollup_mem (nowIso : String) (files : List HFile) (e : RollupItem)
    (he : e ∈ (build_rollup nowIso files).items) :
    ∃ s, slotOf? (occurrencesOf e.channel_id files) = some s ∧
      e = { mkRollupItem (files.filterMap (·.content)).length e.channel_id s with
              rank := e.rank } := by
  by_cases hsnap : (files.filterMap (·.content)).isEmpty = true
  · simp only [build_rollup, hsnap, if_true] at he
    exact absurd he (List.not_mem_nil e)
  · simp only [build_rollup, hsnap, Bool.false_eq_true, if_false] at he
    obtain ⟨p, hp, he'⟩ := List.mem_map.mp he
    have hmem1 := mem_enumFromN _ _ _ hp
    have hmem2 := List.mem_of_mem_take hmem1
    have hmem3 := (List.perm_insertionSort rollupKey _).mem_iff.mp hmem2
    obtain ⟨q, hq, hq2⟩ := List.mem_filterMap.mp hmem3
    by_cases hrE : q.2.ranks.isEmpty = true
    · rw [if_pos hrE] at hq2
      exact absurd hq2 (fun h => Option.noConfusion h)
    · rw [if_neg hrE] at hq2
      have hq3 := Option.some.inj hq2
      have hnd : ((((files.filterMap (·.content)).map (·.items)).flatten.foldl rollStep
          []).map Prod.fst).Nodup :=
        foldl_rollStep_keys_nodup _ [] (by simp)
      have hlk : lookupSlot (((files.filterMap (·.content)).map (·.items)).flatten.foldl
          rollStep []) q.1 = some q.2 :=
        lookupSlot_of_mem q.1 q.2 _ hnd hq
      rw [lookup_foldl_rollStep] at hlk
      simp only [lookupSlot] at hlk
      rw [foldl_optBump_none] at hlk
      have hcid : e.channel_id = q.1 := by
        rw [← he', ← hq3]
        rfl
      refine ⟨q.2, ?_, ?_⟩
      · show slotOf? (occurrencesOf e.channel_id files) = some q.2
        rw [hcid]
        simp only [occurrencesOf]
        exact hlk
      · rw [hcid, ← he', ← hq3]

/-- C7.  Each rollup entry's statistics come from exactly the ranks its
channel received across the parsed snapshots of the input files:
`appearances` is their count, `avg_rank` their mean, `best_rank` their
minimum, `presence` the count divided by the number of parsed snapshots, and
the rollup score is `1·(1/avg_rank) + 1.2·(1/best_rank) + 0.8·presence`; the
output is ordered by descending score with ascending `best_rank` as the
tie-break and capped to 500 entries. -/
theorem rollup_entry_stats (nowIso : String) (files : List HFile) :
    List.Sorted rollupKey (build_rollup nowIso files).items ∧
    (build_rollup nowIso files).items.length ≤ 500 ∧
    ∀ e ∈ (build_rollup nowIso files).items,
      occurrencesOf e.channel_id files ≠ [] ∧
      e.appearances = (occurrencesOf e.channel_id files).length ∧
      e.avg_rank = (((occurrencesOf e.channel_id files).map rkOf).sum : ℚ) /
        ((occurrencesOf e.channel_id files).length : ℚ) ∧
      e.best_rank = minRanks ((occurrencesOf e.channel_id files).map rkOf) ∧
      e.presence = ((occurrencesOf e.channel_id files).length : ℚ) /
        ((files.filterMap (·.content)).length : ℚ) ∧
      e.score = 1 * (1 / e.avg_rank) + (12 / 10) * (1 / (e.best_rank : ℚ)) +
        (8 / 10) * e.presence := by
  haveI : IsTotal RollupItem rollupKey := ⟨fun a b => by
    rcases lt_trichotomy a.score b.score with h | h | h
    · exact Or.inr (Or.inl h)
    · rcases le_total a.best_rank b.best_rank with h2 | h2
      · exact Or.inl (Or.inr ⟨h, h2⟩)
      · exact Or.inr (Or.inr ⟨h.symm, h2⟩)
    · exact Or.inl (Or.inl h)⟩
  haveI : IsTrans RollupItem rollupKey := ⟨fun a b c hab hbc => by
    rcases hab with h1 | ⟨h1e, h1b⟩ <;> rcases hbc with h2 | ⟨h2e, h2b⟩
    · exact Or.inl (lt_trans h2 h1)
    · exact Or.inl (by rw [← h2e]; exact h1)
    · exact Or.inl (by rw [h1e]; exact h2)
    · exact Or.inr ⟨h1e.trans h2e, le_trans h1b h2b⟩⟩
  refine ⟨?_, ?_, ?_⟩
  · by_cases hsnap : (files.filterMap (·.content)).isEmpty = true
    · simp only [build_rollup, hsnap, if_true]
      exact List.sorted_nil
    · simp only [build_rollup, hsnap, Bool.false_eq_true, if_false]
      exact pairwise_enumFromN_map _ (fun i a j b hr => hr) 1 _
        (List.Pairwise.sublist (List.take_sublist _ _)
          (List.sorted_insertionSort rollupKey _))
  · by_cases hsnap : (files.filterMap (·.content)).isEmpty = true
    · simp only [build_rollup, hsnap, if_true]
      simp
    · simp only [build_rollup, hsnap, Bool.false_eq_true, if_false, List.length_map,
        enumFromN_length]
      exact List.length_take_le _ _
  · intro e he
    obtain ⟨s, hslot, hee⟩ := build_rollup_mem nowIso files e he
    obtain ⟨o, os, hocc⟩ : ∃ o os, occurrencesOf e.channel_id files = o :: os := by
      cases hoc : occurrencesOf e.channel_id files with
      | nil =>
        rw [hoc] at hslot
        exact absurd hslot (by simp [slotOf?])
      | cons o os => exact ⟨o, os, rfl⟩
    have hchar := slotOf_char o os s (hocc ▸ hslot)
    have happ : e.appearances = s.ranks.length := by
      conv_lhs => rw [hee]
      rfl
    have havg : e.avg_rank = ((s.ranks.sum : ℚ)) / (s.ranks.length : ℚ) := by
      conv_lhs => rw [hee]
      rfl
    have hbest : e.best_rank = minRanks s.ranks := by
      conv_lhs => rw [hee]
      rfl
    have hpres : e.presence =
        (s.ranks.length : ℚ) / ((files.filterMap (·.content)).length : ℚ) := by
      conv_lhs => rw [hee]
      rfl
    have hscore : e.score = W_AVG * (1 / ((s.ranks.sum : ℚ) / (s.ranks.length : ℚ))) +
        W_BEST * (1 / (minRanks s.ranks : ℚ)) +
        W_PRESENCE * ((s.ranks.length : ℚ) / ((files.filterMap (·.content)).length : ℚ)) := by
      conv_lhs => rw [hee]
      rfl
    refine ⟨by rw [hocc]; exact fun h => List.noConfusion h, ?_, ?_, ?_, ?_, ?_⟩
    · rw [happ, hchar.1, hocc, List.length_map]
    · rw [havg, hchar.1, hocc, List.length_map]
    · rw [hbest, hchar.1, hocc]
    · rw [hpres, hchar.1, hocc, List.length_map]
    · rw [hscore, havg, hbest, hpres, hchar.1]
      simp only [W_AVG, W_BEST, W_PRESENCE]

/-- Witness for C7 at the one-snapshot history `[fileC7]`. -/
theorem rollup_entry_stats_witness :
    rollupE7 ∈ (build_rollup "T" [fileC7]).items ∧
    rollupE7.score = 1 * (1 / rollupE7.avg_rank) +
      (12 / 10) * (1 / (rollupE7.best_rank : ℚ)) + (8 / 10) * rollupE7.presence ∧
    rollupE7.appearances = (occurrencesOf rollupE7.channel_id [fileC7]).length :=
  ⟨by decide,
   ((rollup_entry_stats "T" [fileC7]).2.2 rollupE7 (by decide)).2.2.2.2.2,
   ((rollup_entry_stats "T" [fileC7]).2.2 rollupE7 (by decide)).2.1⟩

/-- C9.  `build_rollup` consumes the window's files in ascending filename
order (the filter returns them sorted), and each entry's non-video fields
are those of the first occurrence of its channel in that order — never
overwritten — while the `latest_video_*` quadruple starts from the first
occurrence and is replaced exactly when a later occurrence's publish string
compares strictly greater. -/
theorem rollup_first_seen_fields (today : Nat × Nat × Nat) (n : Nat) (files : List HFile)
    (nowIso : String) :
    List.Sorted nameRel (filter_last_n_days today files n) ∧
    ∀ e ∈ (build_rollup nowIso (filter_last_n_days today files n)).items,
      ∃ o os, occurrencesOf e.channel_id (filter_last_n_days today files n) = o :: os ∧
        e.channel_name = o.channel_name ∧ e.channel_url = o.channel_url ∧
        e.subscribers = o.subscribers ∧ e.video_count = o.video_count ∧
        e.country = o.country ∧ e.classification = o.classification ∧
        (e.latest_video_id, e.latest_video_title, e.latest_video_thumbnail,
          e.latest_video_published_at) = latestFold (o :: os) := by
  haveI : IsTotal HFile nameRel := ⟨fun a b => by
    rcases listLtB_total a.name.toList b.name.toList with h | h
    · exact Or.inr h
    · exact Or.inl h⟩
  haveI : IsTrans HFile nameRel := ⟨fun a b c hab hbc =>
    listLtB_ge_trans a.name.toList b.name.toList c.name.toList hab hbc⟩
  constructor
  · simp only [filter_last_n_days]
    exact List.sorted_insertionSort nameRel _
  · intro e he
    obtain ⟨s, hslot, hee⟩ := build_rollup_mem nowIso _ e he
    obtain ⟨o, os, hocc⟩ :
        ∃ o os, occurrencesOf e.channel_id (filter_last_n_days today files n) = o :: os := by
      cases hoc : occurrencesOf e.channel_id (filter_last_n_days today files n) with
      | nil =>
        rw [hoc] at hslot
        exact absurd hslot (by simp [slotOf?])
      | cons o os => exact ⟨o, os, rfl⟩
    have hchar := slotOf_char o os s (hocc ▸ hslot)
    have h1 : e.channel_name = s.channel_name := by
      conv_lhs => rw [hee]
      rfl
    have h2 : e.channel_url = s.channel_url := by
      conv_lhs => rw [hee]
      rfl
    have h3 : e.subscribers = s.subscribers := by
      conv_lhs => rw [hee]
      rfl
    have h4 : e.video_count = s.video_count := by
      conv_lhs => rw [hee]
      rfl
    have h5 : e.country = s.country := by
      conv_lhs => rw [hee]
      rfl
    have h6 : e.classification = s.classification := by
      conv_lhs => rw [hee]
      rfl
    have h7 : (e.latest_video_id, e.latest_video_title, e.latest_video_thumbnail,
        e.latest_video_published_at) = slotQuad s := by
      conv_lhs => rw [hee]
      rfl
    exact ⟨o, os, hocc,
      h1.trans hchar.2.2.1,
      h2.trans hchar.2.2.2.1,
      h3.trans hchar.2.2.2.2.1,
      h4.trans hchar.2.2.2.2.2.1,
      h5.trans hchar.2.2.2.2.2.2.1,
      h6.trans hchar.2.2.2.2.2.2.2.1,
      h7.trans hchar.2.2.2.2.2.2.2.2⟩

/-- Witness for C9 at the two-snapshot history `[fileC9a, fileC9b]`: the
channel's fields come from the 2025-01-01 file although the 2025-01-02 file
carries different metadata, and the kept video is the one with the greater
publish string. -/
theorem rollup_first_seen_witness :
    rollupE9 ∈ (build_rollup "T"
      (filter_last_n_days (2025, 1, 2) [fileC9a, fileC9b] 7)).items ∧
    rollupE9.channel_name = "First Name" ∧ rollupE9.latest_video_id = "new" := by
  have h := (rollup_first_seen_fields (2025, 1, 2) 7 [fileC9a, fileC9b] "T").2
    rollupE9 (by decide)
  exact ⟨by decide, by decide, by decide⟩
